import Mathlib

set_option maxRecDepth 40000

/-!
# Verification of the CalDAV recurring-event resolution engine

Shallow embedding of `src/services/caldav.ts` (the second, recurrence-aware
revision of `CalDAVService`): the ICS block parser (`parseICalData`), the
date/time value parser (`parseDateTime`), recurrence expansion
(`expandRecurringEvent`), exception/sequence deduplication
(`deduplicateEvents`) and the final ordering (`sortEvents`).

Modelling conventions:
* A JavaScript `Date` is its epoch-milliseconds time value, `Option Int`;
  `none` models an *Invalid Date* (NaN time value).  `Date` operations that
  throw on an invalid date (`toISOString`) are modelled in `Except Unit`.
* The host's local time zone is a fixed offset `tz` (milliseconds added to an
  epoch instant to obtain local wall-clock milliseconds), threaded as an
  explicit parameter.  This reproduces the source's local/UTC distinction
  (the source performs no timezone-database lookup either); daylight-saving
  transitions are outside the model.
* `Math.random().toString(36)` (fresh ids for records without a `UID`) is
  modelled by an oracle `Nat → String` consumed left to right, one token per
  fresh id.
* `rrule`'s `rrulestr`/`RRuleSet.between` is a third-party library whose code
  is not part of the repository; it is modelled from the spec (see
  `parseRRuleString` and `rruleBetween` below).
-/

namespace Caldav

/-- Milliseconds in one day. -/
def dayMs : Int := 86400000

/-! ## Proleptic-Gregorian civil-date arithmetic

Days-from-civil / civil-from-days conversions (Howard Hinnant's algorithms),
used to model the JavaScript `Date` constructor and its UTC accessors. -/

/-- Gregorian leap-year test. -/
def isLeapYear (y : Int) : Bool := (y % 4 == 0 && y % 100 != 0) || y % 400 == 0

/-- Number of days in month `m` (1–12) of year `y`. -/
def daysInMonth (y m : Int) : Int :=
  if m = 2 then (if isLeapYear y then 29 else 28)
  else if m = 4 ∨ m = 6 ∨ m = 9 ∨ m = 11 then 30
  else 31

/-- Days since 1970-01-01 of the civil date `(y, m, d)` with `m ∈ [1,12]`;
`d` may be out of range (the formula is linear in `d`, matching how the
JavaScript `Date` constructor rolls an out-of-range day over). -/
def daysFromCivil (y m d : Int) : Int :=
  let y1 := if m ≤ 2 then y - 1 else y
  let era := y1.fdiv 400
  let yoe := y1 - era * 400
  let mp := (m + 9) % 12
  let doy := (153 * mp + 2).fdiv 5 + d - 1
  let doe := yoe * 365 + yoe.fdiv 4 - yoe.fdiv 100 + doy
  era * 146097 + doe - 719468

/-- Civil date `(y, m, d)` (with `m ∈ [1,12]`) of the day `z` days after
1970-01-01. -/
def civilFromDays (z : Int) : Int × Int × Int :=
  let z1 := z + 719468
  let era := z1.fdiv 146097
  let doe := z1 - era * 146097
  let yoe := (doe - doe.fdiv 1460 + doe.fdiv 36524 - doe.fdiv 146096).fdiv 365
  let y := yoe + era * 400
  let doy := doe - (365 * yoe + yoe.fdiv 4 - yoe.fdiv 100)
  let mp := (5 * doy + 2).fdiv 153
  let d := doy - (153 * mp + 2).fdiv 5 + 1
  let m := mp + (if mp < 10 then 3 else -9)
  (if m ≤ 2 then y + 1 else y, m, d)

/-! ## JavaScript primitives -/

/-- JS two-digit-year rule of the `Date` constructor and `Date.UTC`:
a year in `[0, 99]` is interpreted as `1900 + year`. -/
def jsYearQuirk (y : Int) : Int := if 0 ≤ y ∧ y ≤ 99 then 1900 + y else y

/-- Raw (unclipped) epoch milliseconds of `Date.UTC(y, m0, d, h, mi, s)`
with 0-based month `m0`; out-of-range fields roll over as in JS. -/
def rawMsUTC (y m0 d h mi s : Int) : Int :=
  let y1 := jsYearQuirk y
  let y2 := y1 + m0.fdiv 12
  let m1 := m0 % 12 + 1
  (daysFromCivil y2 m1 1 + (d - 1)) * dayMs + h * 3600000 + mi * 60000 + s * 1000

/-- JS TimeClip: time values beyond ±8.64e15 ms denote an Invalid Date. -/
def timeClip (t : Int) : Option Int :=
  if t.natAbs ≤ 8640000000000000 then some t else none

/-- `new Date(Date.UTC(y, m0, d, h, mi, s))`. -/
def jsDateUTC (y m0 d h mi s : Int) : Option Int := timeClip (rawMsUTC y m0 d h mi s)

/-- `new Date(y, m0, d, h, mi, s)` under fixed local offset `tz` ms. -/
def jsDateLocal (tz y m0 d h mi s : Int) : Option Int :=
  timeClip (rawMsUTC y m0 d h mi s - tz)

/-- Digits (base 10) to a natural number. -/
def digitsToNat (cs : List Char) : Nat :=
  cs.foldl (fun a c => a * 10 + (c.toNat - 48)) 0

/-- Hex digit value. -/
def hexVal (c : Char) : Nat :=
  if c.isDigit then c.toNat - 48
  else if 'a' ≤ c ∧ c ≤ 'f' then c.toNat - 87
  else c.toNat - 55

/-- Hex digits to a natural number. -/
def hexToNat (cs : List Char) : Nat := cs.foldl (fun a c => a * 16 + hexVal c) 0

/-- Is a hexadecimal digit. -/
def isHexDigit (c : Char) : Bool :=
  c.isDigit || ('a' ≤ c && c ≤ 'f') || ('A' ≤ c && c ≤ 'F')

/-- JS `parseInt(s)` (radix unspecified): skip leading whitespace, optional
sign, `0x`/`0X` selects hexadecimal, otherwise leading decimal digits;
trailing garbage ignored; no digits means `NaN` (modelled `none`). -/
def jsParseInt (s : String) : Option Int :=
  let cs := s.data.dropWhile Char.isWhitespace
  let sign : Int × List Char :=
    match cs with
    | '-' :: r => (-1, r)
    | '+' :: r => (1, r)
    | r => (1, r)
  match sign.2 with
  | '0' :: x :: r =>
      if x = 'x' ∨ x = 'X' then
        let ds := r.takeWhile isHexDigit
        if ds.isEmpty then none else some (sign.1 * (hexToNat ds : Int))
      else
        let ds := (('0' : Char) :: x :: r).takeWhile Char.isDigit
        some (sign.1 * (digitsToNat ds : Int))
  | rest =>
      let ds := rest.takeWhile Char.isDigit
      if ds.isEmpty then none else some (sign.1 * (digitsToNat ds : Int))

/-- `s.substr(start, len)` as in JS (clamped at the string's end). -/
def jsSubstr (s : String) (start len : Nat) : String :=
  String.mk ((s.data.drop start).take len)

/-- Character-list prefix test. -/
def chStarts : List Char → List Char → Bool
  | [], _ => true
  | _ :: _, [] => false
  | p :: ps, c :: cs => p = c && chStarts ps cs

/-- Character-list substring test. -/
def chHasSub (p : List Char) : List Char → Bool
  | [] => p.isEmpty
  | c :: cs => chStarts p (c :: cs) || chHasSub p cs

/-- `s.includes(pat)`. -/
def jsIncludes (s pat : String) : Bool := chHasSub pat.data s.data

/-- `s.startsWith(pat)`. -/
def jsStartsWith (s pat : String) : Bool := chStarts pat.data s.data

/-- `s.trim()` (both ends, Unicode whitespace approximated by
`Char.isWhitespace`). -/
def jsTrim (s : String) : String :=
  String.mk (((s.data.dropWhile Char.isWhitespace).reverse.dropWhile
    Char.isWhitespace).reverse)

/-- Split a character list at every occurrence of `c` (JS `split`). -/
def splitCh (c : Char) : List Char → List (List Char)
  | [] => [[]]
  | x :: xs =>
    match splitCh c xs with
    | [] => [[x]]
    | h :: t => if x = c then [] :: h :: t else (x :: h) :: t

/-- `s.split('\n')`. -/
def splitLines (s : String) : List String := (splitCh '\n' s.data).map String.mk

/-- The part of `line` before the first `':'` (JS `line.split(':')[0]`). -/
def keyOf (line : String) : String := String.mk (line.data.takeWhile (· ≠ ':'))

/-- The part of `line` after the first `':'`
(JS `valueParts.join(':')` after `split(':')`), `""` if there is no colon. -/
def valOf (line : String) : String :=
  match line.data.dropWhile (· ≠ ':') with
  | _ :: rest => String.mk rest
  | [] => ""

/-- `a.getTime() - b.getTime()` with NaN propagation. -/
def jsSubOpt : Option Int → Option Int → Option Int
  | some a, some b => some (a - b)
  | _, _ => none

/-- JS `x !== y` on two `getTime()` results: `NaN !== NaN` is `true`. -/
def jsNeqTime : Option Int → Option Int → Bool
  | some a, some b => a ≠ b
  | _, _ => true

/-- UTC day number of a valid instant (`toISOString().split('T')[0]`
identifies exactly this). -/
def utcDay (ms : Int) : Int := ms.fdiv dayMs

/-- Local day number of an instant under offset `tz` (`toDateString()`
identifies exactly this on a valid date); `none` stands for the literal
string `"Invalid Date"` that `toDateString` returns on an invalid one. -/
def localDay (tz : Int) : Option Int → Option Int
  | some ms => some ((ms + tz).fdiv dayMs)
  | none => none

/-- Day-of-week of a UTC day number, `0` = Sunday (1970-01-01 was a
Thursday). -/
def weekdayOfDay (day : Int) : Int := (day + 4) % 7

/-! ## Data model -/

/-- A parsed event record as pushed by `parseICalData`, before fresh-id
assignment: `uid` is the raw `currentEvent.id` (`none` = the `UID` property
never appeared).  `start`/`evEnd`/`recurrenceId` hold JS `Date`s
(inner `none` = Invalid Date); the outer `Option` on `evEnd`/`recurrenceId`
distinguishes an absent property (`undefined`). -/
structure PreEvent where
  uid : Option String
  /-- Whether this push site computes `currentEvent.id || Math.random()…`
  (the standalone and exception pushes do; the expansion-failure fallback
  returns the raw `currentEvent`, leaving a missing id `undefined`, and
  expanded occurrences always carry a concrete id). -/
  needsFresh : Bool
  title : String
  start : Option Int
  evEnd : Option (Option Int)
  allDay : Bool
  sequence : Option Int
  recurrenceId : Option (Option Int)
  deriving DecidableEq, Repr

/-- The engine's output unit (`CalendarEvent` of the source) after id
assignment (`id = none` models `undefined`, possible on the
expansion-failure fallback path). -/
structure CalendarEvent where
  id : Option String
  title : String
  start : Option Int
  evEnd : Option (Option Int)
  allDay : Bool
  sequence : Option Int
  recurrenceId : Option (Option Int)
  deriving DecidableEq, Repr

/-- The in-progress `currentEvent` object of `parseICalData`'s loop. -/
structure CurEvent where
  title : Option String
  start : Option (Option Int)
  evEnd : Option (Option Int)
  uid : Option String
  allDay : Bool
  sequence : Option Int
  rrule : Option String
  recurrenceId : Option (Option Int)
  status : Option String
  exdates : List (Option Int)
  deriving DecidableEq, Repr

/-- `currentEvent = { exdates: [] }` at `BEGIN:VEVENT`. -/
def emptyCur : CurEvent :=
  ⟨none, none, none, none, false, none, none, none, none, []⟩

/-- Parser loop state: accumulated events and the `inEvent` flag. -/
structure PState where
  events : List PreEvent
  inEvent : Bool
  cur : CurEvent
  deriving DecidableEq, Repr

/-! ## `parseDateTime` -/

/-- The source's `parseDateTime(dateTimeString, isDateOnly)`: fixed-offset
positional parse of `YYYYMMDD` (local) or `YYYYMMDDTHHMMSS[Z]` (UTC with
trailing `Z`, otherwise local); a NaN in any component yields an Invalid
Date (`none`), never a throw. -/
def parseDateTime (tz : Int) (s : String) (isDateOnly : Bool) : Option Int :=
  if isDateOnly then
    match jsParseInt (jsSubstr s 0 4), jsParseInt (jsSubstr s 4 2),
        jsParseInt (jsSubstr s 6 2) with
    | some y, some mo, some d => jsDateLocal tz y (mo - 1) d 0 0 0
    | _, _, _ => none
  else
    match jsParseInt (jsSubstr s 0 4), jsParseInt (jsSubstr s 4 2),
        jsParseInt (jsSubstr s 6 2), jsParseInt (jsSubstr s 9 2),
        jsParseInt (jsSubstr s 11 2), jsParseInt (jsSubstr s 13 2) with
    | some y, some mo, some d, some h, some mi, some sec =>
        if s.data.getLast? = some 'Z' then jsDateUTC y (mo - 1) d h mi sec
        else jsDateLocal tz y (mo - 1) d h mi sec
    | _, _, _, _, _, _ => none

/-! ## Recurrence expansion

The source delegates `RRULE` parsing and occurrence enumeration to the
third-party `rrule` package (`rrulestr`, `RRuleSet.between`), whose code is
not part of this repository.  The two definitions below are therefore
modelled from the spec (§4.2 step 2 and the edge-case policies). -/

/-- Recurrence frequency. -/
inductive Freq | daily | weekly | monthly | yearly
  deriving DecidableEq, Repr

/-- A parsed recurrence rule. -/
structure RRuleData where
  freq : Freq
  interval : Int
  byday : Option (List Int)
  deriving DecidableEq, Repr

/-- The part of an `XXX=YYY` rule component before the first `'='`. -/
def eqKeyOf (part : String) : String :=
  String.mk (part.data.takeWhile (· ≠ '='))

/-- The part of an `XXX=YYY` rule component after the first `'='`. -/
def eqValOf (part : String) : String :=
  match part.data.dropWhile (· ≠ '=') with
  | _ :: rest => String.mk rest
  | [] => ""

/-- Weekday code (`MO`, …) to day-of-week number, `0` = Sunday. -/
def wdCode (s : String) : Option Int :=
  if s = "SU" then some 0 else if s = "MO" then some 1
  else if s = "TU" then some 2 else if s = "WE" then some 3
  else if s = "TH" then some 4 else if s = "FR" then some 5
  else if s = "SA" then some 6 else none

/-- Parse a comma-separated `BYDAY` list; an unknown code fails. -/
def parseByday (v : String) : Option (List Int) :=
  (splitCh ',' v.data).mapM (fun cs => wdCode (String.mk cs))

/-- Modelled from the spec: the `rrule` library's rule-string parser
(`rrulestr`).  Recognized parts: `FREQ` (`DAILY`/`WEEKLY`/`MONTHLY`/`YEARLY`,
anything else is an unrecognized frequency and a parse failure), `INTERVAL`
(integer multiplier, malformed fails), `BYDAY` (weekday list, malformed
fails); other parts are ignored.  `none` models the library throwing, which
the source catches. -/
def parseRRuleString (s : String) : Option RRuleData :=
  let parts := (splitCh ';' s.data).map String.mk
  let step := fun (acc : Option RRuleData) (p : String) =>
    match acc with
    | none => none
    | some r =>
      let k := eqKeyOf p
      let v := eqValOf p
      if k = "FREQ" then
        if v = "DAILY" then some { r with freq := .daily }
        else if v = "WEEKLY" then some { r with freq := .weekly }
        else if v = "MONTHLY" then some { r with freq := .monthly }
        else if v = "YEARLY" then some { r with freq := .yearly }
        else none
      else if k = "INTERVAL" then
        match jsParseInt v with
        | some n => some { r with interval := n }
        | none => none
      else if k = "BYDAY" then
        match parseByday v with
        | some l => some { r with byday := some l }
        | none => none
      else some r
  let base : Option RRuleData := some ⟨.daily, 1, none⟩
  match parts.foldl step base with
  | none => none
  | some r => if jsIncludes s "FREQ=" then some r else none

/-- Safety ceiling on generated candidates per master (spec §4.2: a fixed
bound guaranteeing termination; exceeding it truncates, never errors). -/
def candidateCap : Nat := 1000

/-- Candidate count for a window, clamped to `[0, candidateCap]`:
proportional to window length over minimum step size (spec §9). -/
def candidateCount (dtstart wEnd stepMs : Int) : Nat :=
  min candidateCap (((wEnd - dtstart).fdiv stepMs + 2).toNat)

/-- The `k`-th candidate instant of a rule anchored at `dtstart`
(`none` = skipped, e.g. a 31st in a short month). -/
def ruleCandidate (r : RRuleData) (dtstart : Int) (k : Nat) : Option Int :=
  match r.freq with
  | .daily => some (dtstart + k * r.interval * dayMs)
  | .weekly =>
    match r.byday with
    | none => some (dtstart + k * r.interval * (7 * dayMs))
    | some l =>
      let t := dtstart + k * dayMs
      if weekdayOfDay (t.fdiv dayMs) ∈ l ∧ ((k : Int).fdiv 7) % r.interval = 0
      then some t else none
  | .monthly =>
    let day0 := dtstart.fdiv dayMs
    let tod := dtstart - day0 * dayMs
    let c := civilFromDays day0
    let mTotal := (c.2.1 - 1) + k * r.interval
    let y1 := c.1 + mTotal.fdiv 12
    let m1 := mTotal % 12 + 1
    if c.2.2 ≤ daysInMonth y1 m1
    then some (daysFromCivil y1 m1 c.2.2 * dayMs + tod) else none
  | .yearly =>
    let day0 := dtstart.fdiv dayMs
    let tod := dtstart - day0 * dayMs
    let c := civilFromDays day0
    let y1 := c.1 + k * r.interval
    if c.2.2 ≤ daysInMonth y1 c.2.1
    then some (daysFromCivil y1 c.2.1 c.2.2 * dayMs + tod) else none

/-- Step size (ms) used only to bound candidate enumeration. -/
def ruleStepMs (r : RRuleData) : Int :=
  let iv := max r.interval 1
  match r.freq with
  | .daily => iv * dayMs
  | .weekly => (match r.byday with | none => iv * 7 * dayMs | some _ => dayMs)
  | .monthly => iv * 28 * dayMs
  | .yearly => iv * 365 * dayMs

/-- Modelled from the spec: `RRuleSet.between(wStart, wEnd, true)` for a rule
anchored at `dtstart` — the candidate instants that fall inside the window,
inclusive at both ends; an invalid `DTSTART` yields no occurrences. -/
def rruleBetween (r : RRuleData) (dtstart : Option Int) (wStart wEnd : Int) :
    List Int :=
  match dtstart with
  | none => []
  | some d0 =>
    (List.range (candidateCount d0 wEnd (ruleStepMs r))).filterMap
      (fun k =>
        match ruleCandidate r d0 k with
        | some t => if wStart ≤ t ∧ t ≤ wEnd then some t else none
        | none => none)

/-- The standalone-shaped record that `parseICalData` pushes for a plain
event, for an exception-less master whose expansion failed (then with
`fresh = false`: the source returns the raw `currentEvent` there), or (with
`rid` set) for a `RECURRENCE-ID` exception. -/
def plainRecord (cur : CurEvent) (fresh : Bool) (t : String) (st : Option Int)
    (rid : Option (Option Int)) : PreEvent :=
  ⟨cur.uid, fresh, t, st, cur.evEnd, cur.allDay, cur.sequence, rid⟩

/-- The source's `expandRecurringEvent`: expand a master inside the
requested window through the (spec-modelled) `rrule` set with `EXDATE`
exclusions; all-day occurrences are rebuilt at local midnight of the
occurrence's UTC civil date; ids are `event.id + '_' + occurrence.getTime()`
(JS string concatenation renders an absent `UID` as `"undefined"`); the
master's duration is reapplied; expanded records carry `sequence` 0. -/
def expandedRecord (tz : Int) (cur : CurEvent) (t : String)
    (dur : Option Int) (occ : Int) : PreEvent :=
  let occDate : Option Int :=
    if cur.allDay then
      let c := civilFromDays (occ.fdiv dayMs)
      jsDateLocal tz c.1 (c.2.1 - 1) c.2.2 0 0 0
    else some occ
  let idStr := (match cur.uid with
    | none => "undefined"
    | some u => u) ++ "_" ++ toString occ
  let endDate : Option Int :=
    match dur with
    | some d => if 0 < d then
        (match occDate with
         | some o => timeClip (o + d)
         | none => none)
      else occDate
    | none => occDate
  ⟨some idStr, false, t, occDate, some endDate, cur.allDay, some 0, none⟩

/-- The body of `expandRecurringEvent` once the window is set and the rule
string parsed: expand inside the window with `EXDATE` exclusions; an empty
expansion falls back to the single original event. -/
def expandWithRule (tz w1 w2 : Int) (cur : CurEvent) (t : String)
    (st : Option Int) (r : RRuleData) : List PreEvent :=
  let exs := cur.exdates.filterMap id
  let occs := (rruleBetween r st w1 w2).filter (fun o => decide (o ∉ exs))
  let dur : Option Int :=
    match cur.evEnd with
    | some e => jsSubOpt e st
    | none => some 0
  let expanded := occs.map (expandedRecord tz cur t dur)
  if expanded.length > 0 then expanded
  else [plainRecord cur false t st none]

/-- The source's `expandRecurringEvent`: an unset window or a rule-parse
failure (the library throw, caught) falls back to the single original
event, otherwise the master expands through the (spec-modelled) rule set. -/
def expandRecurringEvent (tz : Int) (win : Option (Int × Int))
    (cur : CurEvent) (t : String) (st : Option Int) (rle : String) :
    List PreEvent :=
  match win with
  | none => [plainRecord cur false t st none]
  | some (w1, w2) =>
    match parseRRuleString rle with
    | none => [plainRecord cur false t st none]
    | some r => expandWithRule tz w1 w2 cur t st r

/-! ## `parseICalData` -/

/-- What `END:VEVENT` pushes: nothing for a cancelled block or one whose
`title`/`start` is falsy (unset title or start, or empty title); an
exception record when `RECURRENCE-ID` is set; the expansion of an `RRULE`
master; otherwise the standalone record. -/
def endPush (tz : Int) (win : Option (Int × Int)) (cur : CurEvent) :
    List PreEvent :=
  if cur.status = some "CANCELLED" then []
  else
    match cur.title, cur.start with
    | some t, some st =>
      if t = "" then []
      else
        match cur.recurrenceId with
        | some rid => [plainRecord cur true t st (some rid)]
        | none =>
          match cur.rrule with
          | some rle => expandRecurringEvent tz win cur t st rle
          | none => [plainRecord cur true t st none]
    | _, _ => []

/-- One recognized property line applied to `currentEvent` (the source's
`else if (inEvent)` branch), in the source's test order. -/
def propStep (tz : Int) (cur : CurEvent) (line : String) : CurEvent :=
  let k := keyOf line
  let v := valOf line
  if k = "SUMMARY" then { cur with title := some v }
  else if jsStartsWith k "DTSTART" then
    let c := { cur with
      start := some (parseDateTime tz v (jsIncludes k "VALUE=DATE")) }
    if jsIncludes k "VALUE=DATE" then { c with allDay := true } else c
  else if jsStartsWith k "DTEND" then
    { cur with evEnd := some (parseDateTime tz v (jsIncludes k "VALUE=DATE")) }
  else if k = "UID" then { cur with uid := some v }
  else if k = "RRULE" then { cur with rrule := some v }
  else if jsStartsWith k "RECURRENCE-ID" then
    { cur with recurrenceId := some (parseDateTime tz v (!jsIncludes v "T")) }
  else if k = "STATUS" then { cur with status := some v }
  else if k = "SEQUENCE" then
    { cur with sequence := some ((jsParseInt v).getD 0) }
  else if jsStartsWith k "EXDATE" then
    { cur with exdates := cur.exdates ++ [parseDateTime tz v (!jsIncludes v "T")] }
  else cur

/-- One line of `parseICalData`'s loop. -/
def lineStep (tz : Int) (win : Option (Int × Int)) (s : PState)
    (rawLine : String) : PState :=
  let line := jsTrim rawLine
  if line = "BEGIN:VEVENT" then { s with inEvent := true, cur := emptyCur }
  else if line = "END:VEVENT" ∧ s.inEvent then
    { events := s.events ++ endPush tz win s.cur, inEvent := false,
      cur := s.cur }
  else if s.inEvent then { s with cur := propStep tz s.cur line }
  else s

/-- Run the parser loop over a list of raw lines from a state. -/
def runLines (tz : Int) (win : Option (Int × Int)) (s : PState)
    (ls : List String) : PState :=
  ls.foldl (lineStep tz win) s

/-- Initial parser state. -/
def initPState : PState := ⟨[], false, emptyCur⟩

/-- `parseICalData` over pre-split lines. -/
def parseLines (tz : Int) (win : Option (Int × Int)) (ls : List String) :
    List PreEvent :=
  (runLines tz win initPState ls).events

/-- The source's `parseICalData(icalData)` (ids not yet assigned): split on
`'\n'`, trim each line, run the `BEGIN:VEVENT`/`END:VEVENT` state machine. -/
def parseICalData (tz : Int) (win : Option (Int × Int)) (icalData : String) :
    List PreEvent :=
  parseLines tz win (splitLines icalData)

/-- Assign ids: push sites with `id: currentEvent.id || Math.random()…`
take the next oracle token when the `UID` was absent or empty; all other
records keep their raw id (possibly `undefined`). -/
def assignIds (oracle : Nat → String) : Nat → List PreEvent →
    List CalendarEvent
  | _, [] => []
  | n, e :: es =>
    let fresh := e.needsFresh ∧ (e.uid = none ∨ e.uid = some "")
    let idv : Option String := if fresh then some (oracle n) else e.uid
    ⟨idv, e.title, e.start, e.evEnd, e.allDay, e.sequence, e.recurrenceId⟩ ::
      assignIds oracle (if fresh then n + 1 else n) es

/-! ## `deduplicateEvents`

The dedup keys are the JS strings `` `${title}__${dateKey}` `` where
`dateKey` is `toDateString()` (all-day), `toISOString().split('T')[0]`
(timed), the full `toISOString()` (re-key on a sequence tie), or the
constant `"Invalid Date"` (`toDateString` of an invalid date).  The four
value shapes can never collide as strings — `toDateString` output
(`"Mon Jan 06 2025"`, 15 chars, spaces, no `-`/`:`), an ISO date
(`"2025-01-06"`, 10 chars), a full ISO instant (24 chars, contains `:`)
and `"Invalid Date"` (12 chars, letters and one space) pairwise differ on
every length-aligned suffix, so `t1 ++ "__" ++ d1 = t2 ++ "__" ++ d2`
forces equal tags and equal titles.  The key is therefore modelled as the
pair of the title and a structured day tag. -/

/-- Structured stand-in for the `dateKey` strings. -/
inductive DTag
  /-- `toDateString()`: local civil day, `none` = `"Invalid Date"`. -/
  | localD (d : Option Int)
  /-- `toISOString().split('T')[0]`: UTC day (valid dates only). -/
  | utcD (d : Int)
  /-- full `toISOString()`: exact instant (valid dates only). -/
  | instant (ms : Int)
  deriving DecidableEq, Repr

/-- A dedup-map key `` `${title}__${dateKey}` ``. -/
abbrev EKey := String × DTag

/-- `event.sequence || 0` (and `undefined` coerced by `||`). -/
def seqN (e : CalendarEvent) : Int := e.sequence.getD 0

/-- The `(title, day)` key of an event's own start: `toDateString()` for
all-day events (total — `"Invalid Date"` on an invalid date),
`toISOString()` for timed ones (throws on an invalid date). -/
def dayKey (tz : Int) (e : CalendarEvent) : Except Unit EKey :=
  if e.allDay then .ok (e.title, .localD (localDay tz e.start))
  else
    match e.start with
    | some ms => .ok (e.title, .utcD (utcDay ms))
    | none => .error ()

/-- The `(title, day)` key built from an exception's `recurrenceId`. -/
def recIdKey (tz : Int) (e : CalendarEvent) (rid : Option Int) :
    Except Unit EKey :=
  if e.allDay then .ok (e.title, .localD (localDay tz rid))
  else
    match rid with
    | some ms => .ok (e.title, .utcD (utcDay ms))
    | none => .error ()

/-- The re-key `` `${title}__${start.toISOString()}` `` on a sequence tie. -/
def timeKey (e : CalendarEvent) : Except Unit EKey :=
  match e.start with
  | some ms => .ok (e.title, .instant ms)
  | none => .error ()

/-- First pass of `deduplicateEvents`: collect the `(title, recurrenceId
day)` keys of all exception records. -/
def modifiedOccurrences (tz : Int) (events : List CalendarEvent) :
    Except Unit (List EKey) :=
  events.foldlM (fun acc e =>
    match e.recurrenceId with
    | some rid => do
        let k ← recIdKey tz e rid
        pure (acc ++ [k])
    | none => pure acc) []

/-- Second pass: drop expanded occurrences (`sequence === 0`, no
`recurrenceId`) whose `(title, day)` key was modified by an exception. -/
def filterModified (tz : Int) (mods : List EKey)
    (events : List CalendarEvent) : Except Unit (List CalendarEvent) :=
  events.foldlM (fun acc e =>
    if e.sequence ≠ some 0 ∨ e.recurrenceId.isSome then pure (acc ++ [e])
    else do
      let k ← dayKey tz e
      pure (if k ∈ mods then acc else acc ++ [e])) []

/-- Insertion-ordered JS `Map`: `set` replaces in place, else appends. -/
def mapSet (m : List (EKey × CalendarEvent)) (k : EKey) (e : CalendarEvent) :
    List (EKey × CalendarEvent) :=
  if (m.lookup k).isSome
  then m.map (fun p => if p.1 = k then (k, e) else p)
  else m ++ [(k, e)]

/-- Third pass, one event against the map: keep the higher sequence per
`(title, day)`; on a sequence tie with a differing exact start instant,
re-key the newcomer by `` `${title}__${start.toISOString()}` ``. -/
def dedupStep (tz : Int) (m : List (EKey × CalendarEvent))
    (e : CalendarEvent) : Except Unit (List (EKey × CalendarEvent)) := do
  let k ← dayKey tz e
  match m.lookup k with
  | none => pure (mapSet m k e)
  | some ex =>
    if seqN e > seqN ex then pure (mapSet m k e)
    else if seqN e = seqN ex ∧ jsNeqTime e.start ex.start then do
      let tk ← timeKey e
      pure (mapSet m tk e)
    else pure m

/-- The source's `deduplicateEvents(events)`; `.error` models the `Date`
method throw (`toISOString` on an invalid date) escaping the function. -/
def deduplicateEvents (tz : Int) (events : List CalendarEvent) :
    Except Unit (List CalendarEvent) := do
  let mods ← modifiedOccurrences tz events
  let filtered ← filterModified tz mods events
  let m ← filtered.foldlM (dedupStep tz) []
  pure (m.map (·.2))

/-! ## `sortEvents` -/

/-- The source's comparator: all-day events first, then by start time
(`NaN` from an invalid date compares as `0`, per Array.prototype.sort's
treatment of a comparator result that is neither negative nor positive). -/
def evCmp (a b : CalendarEvent) : Option Int :=
  if a.allDay ∧ ¬b.allDay then some (-1)
  else if ¬a.allDay ∧ b.allDay then some 1
  else jsSubOpt a.start b.start

/-- Stable insertion of `x`: before the first element `y` with
`cmp x y < 0`. -/
def insertSorted (x : CalendarEvent) : List CalendarEvent →
    List CalendarEvent
  | [] => [x]
  | y :: ys =>
    if (evCmp x y).getD 0 < 0 then x :: y :: ys else y :: insertSorted x ys

/-- The source's `sortEvents`: the stable sort by `evCmp`.  This function
equals the `Array.prototype.sort` result exactly when `evCmp` is a
consistent comparison function on the batch (every start a valid date —
see `consistentOn` and `jsSortResult`); on an inconsistent batch (some
comparison returns `NaN`) the engine's order is implementation-defined
per ES2023 23.1.3.30 and is NOT pinned down by this function.  The
pipeline below uses it as the engine's sort; every concrete batch this
file evaluates it on is consistent, so those results are the mandated
ones. -/
def sortEvents (events : List CalendarEvent) : List CalendarEvent :=
  events.foldl (fun acc e => insertSorted e acc) []

/-! ## The full resolve pipeline -/

/-- `fetchEvents`' engine part on one batch of calendar objects:
parse every object, assign ids, deduplicate across the batch, sort.
`.error` models an exception aborting the batch. -/
def resolveBatch (tz w1 w2 : Int) (oracle : Nat → String)
    (objects : List String) : Except Unit (List CalendarEvent) := do
  let recs := (objects.map (parseICalData tz (some (w1, w2)))).flatten
  let evs ← deduplicateEvents tz (assignIds oracle 0 recs)
  pure (sortEvents evs)

/-- Single-object resolve. -/
def resolve (tz w1 w2 : Int) (oracle : Nat → String) (icalData : String) :
    Except Unit (List CalendarEvent) :=
  resolveBatch tz w1 w2 oracle [icalData]

/-- The resolve pipeline over pre-split lines of one object (used to state
block-level properties of the pipeline). -/
def resolveLines (tz w1 w2 : Int) (oracle : Nat → String) (ls : List String) :
    Except Unit (List CalendarEvent) :=
  (deduplicateEvents tz
    (assignIds oracle 0 (parseLines tz (some (w1, w2)) ls))).map sortEvents

/-! ## Statement-support definitions -/

/-- The `currentEvent` accumulation over in-block lines from a given
state (a stray `BEGIN:VEVENT` restarts the block, exactly as in the loop). -/
def blockFold (tz : Int) (c : CurEvent) (ls : List String) : CurEvent :=
  ls.foldl (fun c l =>
    let t := jsTrim l
    if t = "BEGIN:VEVENT" then emptyCur else propStep tz c t) c

/-- The `currentEvent` value accumulated by the parser over the property
lines of one `VEVENT` block. -/
def blockCur (tz : Int) (ls : List String) : CurEvent :=
  blockFold tz emptyCur ls

/-- The sort contract between two occurrences in output order: a timed
occurrence never precedes an all-day one, and two occurrences of the same
group (same all-day flag) with valid starts are in ascending start order. -/
def allDayFirstAsc (a b : CalendarEvent) : Prop :=
  (b.allDay = true → a.allDay = true) ∧
  (a.allDay = b.allDay →
    ∀ ta tb, a.start = some ta → b.start = some tb → ta ≤ tb)

/-- ES2023's "consistent comparison function" requirement, decided for
`evCmp` on a batch: a consistent comparator must (among the ordering
requirements) never return `NaN` on a pair of elements of the batch,
possibly the same element twice.  `evCmp` returns `NaN` (`none`) exactly
when two events of the same group meet and one has an invalid start —
which happens for some pair (at the latest an invalid-start event against
itself) iff some start is invalid.  So `evCmp` is consistent on a batch
iff every start is valid, and it is then the total preorder "all-day
first, then by start instant", satisfying the remaining requirements. -/
def consistentOn (l : List CalendarEvent) : Bool :=
  l.all (fun e => e.start.isSome)

/-- The `Array.prototype.sort` contract (ES2023 23.1.3.30) for `evCmp`:
when the comparator is consistent on the batch, the result is mandated to
be the unique stable sorted permutation, i.e. `sortEvents`; otherwise the
sort order is implementation-defined, and any permutation of the input is
a conforming result — V8's TimSort, for instance, returns unchanged any
batch that the NaN-coerced comparator judges pairwise non-descending. -/
def jsSortResult (l out : List CalendarEvent) : Prop :=
  if consistentOn l = true then out = sortEvents l else out.Perm l

/-- Invariant of the dedup map: keys are pairwise distinct; every entry is
stored under its own day key or its own exact-instant re-key; and every
re-keyed entry is dominated by the entry at its day key — same sequence
with a differing instant, or a strictly higher sequence. -/
def dedupInv (tz : Int) (m : List (EKey × CalendarEvent)) : Prop :=
  m.Pairwise (fun p q => p.1 ≠ q.1) ∧
  (∀ p ∈ m, dayKey tz p.2 = .ok p.1 ∨ timeKey p.2 = .ok p.1) ∧
  (∀ p ∈ m, timeKey p.2 = .ok p.1 →
    ∃ q ∈ m, dayKey tz p.2 = .ok q.1 ∧ seqN p.2 ≤ seqN q.2 ∧
      (seqN p.2 < seqN q.2 ∨ jsNeqTime p.2.start q.2.start = true))

/-! ## Concrete scenario inputs

Window: 2025-01-06T00:00Z .. 2025-02-02T00:00Z (four Mondays: Jan 6, 13,
20, 27). -/

/-- Window start, 2025-01-06T00:00Z. -/
def exWinS : Int := 1736121600000

/-- Window end, 2025-02-02T00:00Z. -/
def exWinE : Int := 1738454400000

/-- A fresh-id oracle returning a constant token. -/
def oracleConst (s : String) : Nat → String := fun _ => s

/-- Weekly Monday master plus an override of the third Monday carrying the
same title and a different time. -/
def icalOverrideSameTitle : String :=
  "BEGIN:VEVENT\nSUMMARY:Series\nDTSTART:20250106T090000Z\nDTEND:20250106T100000Z\nRRULE:FREQ=WEEKLY;BYDAY=MO\nUID:master1\nEND:VEVENT\nBEGIN:VEVENT\nSUMMARY:Series\nDTSTART:20250120T140000Z\nDTEND:20250120T150000Z\nRECURRENCE-ID:20250120T090000Z\nUID:ovr1\nSEQUENCE:1\nEND:VEVENT"

/-- The same scenario except that the override carries a different title. -/
def icalOverrideDiffTitle : String :=
  "BEGIN:VEVENT\nSUMMARY:Series\nDTSTART:20250106T090000Z\nDTEND:20250106T100000Z\nRRULE:FREQ=WEEKLY;BYDAY=MO\nUID:master1\nEND:VEVENT\nBEGIN:VEVENT\nSUMMARY:Moved\nDTSTART:20250120T140000Z\nDTEND:20250120T150000Z\nRECURRENCE-ID:20250120T090000Z\nUID:ovr1\nSEQUENCE:1\nEND:VEVENT"

/-- A single standalone event whose start (2030) lies far outside the
window. -/
def icalOutsideWindow : String :=
  "BEGIN:VEVENT\nSUMMARY:Far\nDTSTART:20300101T120000Z\nUID:u9\nEND:VEVENT"

/-- A standalone event without a `UID` property. -/
def icalNoUid : String :=
  "BEGIN:VEVENT\nSUMMARY:NoUid\nDTSTART:20250110T120000Z\nEND:VEVENT"

/-- A block with an unparseable `DTSTART` followed by a well-formed one. -/
def icalBadStart : String :=
  "BEGIN:VEVENT\nSUMMARY:Bad\nDTSTART:GARBAGE\nEND:VEVENT\nBEGIN:VEVENT\nSUMMARY:Good\nDTSTART:20250110T120000Z\nUID:u2\nEND:VEVENT"

/-- A standalone record with an explicit `SEQUENCE:0` plus an exception
whose `RECURRENCE-ID` matches its day. -/
def icalSeqZeroSuppressed : String :=
  "BEGIN:VEVENT\nSUMMARY:T\nDTSTART:20250110T090000Z\nSEQUENCE:0\nUID:u1\nEND:VEVENT\nBEGIN:VEVENT\nSUMMARY:T\nDTSTART:20250110T150000Z\nRECURRENCE-ID:20250110T090000Z\nUID:u2\nEND:VEVENT"

/-- Three same-title same-day records with sequences 0, 0 and 2. -/
def icalSeqTrio : String :=
  "BEGIN:VEVENT\nSUMMARY:S\nDTSTART:20250110T090000Z\nSEQUENCE:0\nUID:a1\nEND:VEVENT\nBEGIN:VEVENT\nSUMMARY:S\nDTSTART:20250110T100000Z\nSEQUENCE:0\nUID:a2\nEND:VEVENT\nBEGIN:VEVENT\nSUMMARY:S\nDTSTART:20250110T110000Z\nSEQUENCE:2\nUID:a3\nEND:VEVENT"

/-- An all-day event and a timed event with the same title and the same
start instant (local midnight at `tz = 0`). -/
def icalAllDayTimedPair : String :=
  "BEGIN:VEVENT\nSUMMARY:D\nDTSTART;VALUE=DATE:20250110\nUID:b1\nEND:VEVENT\nBEGIN:VEVENT\nSUMMARY:D\nDTSTART:20250110T000000\nUID:b2\nEND:VEVENT"

/-- A master with an unrecognized frequency whose own start (2030) lies
outside the window. -/
def icalBadFreq : String :=
  "BEGIN:VEVENT\nSUMMARY:BadRule\nDTSTART:20300101T090000Z\nRRULE:FREQ=SECONDLY\nUID:d1\nEND:VEVENT"

/-- Lines of a complete well-formed block (used as a prefix context). -/
def preStayLines : List String :=
  ["BEGIN:VEVENT", "SUMMARY:Stay", "DTSTART:20250111T090000Z", "UID:c2",
   "END:VEVENT"]

/-- Property lines of a cancelled block. -/
def cancelledPropLines : List String :=
  ["SUMMARY:Gone", "DTSTART:20250110T090000Z", "STATUS:CANCELLED"]

/-- Property lines of a master with an unrecognized frequency. -/
def badFreqPropLines : List String :=
  ["SUMMARY:BadRule", "DTSTART:20300101T090000Z", "RRULE:FREQ=SECONDLY",
   "UID:d1"]

/-- Resolved all-day occurrence of `icalAllDayTimedPair` (starts at local
midnight 2025-01-10, `tz = 0`). -/
def evAllDayD : CalendarEvent :=
  ⟨some "b1", "D", some 1736467200000, none, true, none, none⟩

/-- Resolved timed occurrence of `icalAllDayTimedPair` (same instant). -/
def evTimedD : CalendarEvent :=
  ⟨some "b2", "D", some 1736467200000, none, false, none, none⟩

/-- Three standalone all-day blocks: valid 2025-01-15, an unparseable
`DTSTART;VALUE=DATE`, valid 2025-01-10 — distinct titles, so all three
survive deduplication, the middle one with an Invalid Date start. -/
def icalAllDayInvalid : String :=
  "BEGIN:VEVENT\nSUMMARY:A\nDTSTART;VALUE=DATE:20250115\nUID:s1\nEND:VEVENT\nBEGIN:VEVENT\nSUMMARY:B\nDTSTART;VALUE=DATE:GARBAGE\nUID:s2\nEND:VEVENT\nBEGIN:VEVENT\nSUMMARY:C\nDTSTART;VALUE=DATE:20250110\nUID:s3\nEND:VEVENT"

/-- Resolved all-day occurrence at local midnight 2025-01-15 (`tz = 0`). -/
def evJan15A : CalendarEvent :=
  ⟨some "s1", "A", some 1736899200000, none, true, none, none⟩

/-- All-day occurrence whose `DTSTART;VALUE=DATE` did not parse: its
start is an Invalid Date. -/
def evInvalidB : CalendarEvent :=
  ⟨some "s2", "B", none, none, true, none, none⟩

/-- Resolved all-day occurrence at local midnight 2025-01-10. -/
def evJan10C : CalendarEvent :=
  ⟨some "s3", "C", some 1736467200000, none, true, none, none⟩

/-- A sequence-0 record on 2025-01-10 (09:00Z). -/
def evS0 : CalendarEvent :=
  ⟨some "x0", "P", some 1736499600000, none, false, some 0, none⟩

/-- A same-title same-day sequence-1 record (10:00Z). -/
def evS1 : CalendarEvent :=
  ⟨some "x1", "P", some 1736503200000, none, false, some 1, none⟩

/-- A master block state: `Standup`, 2025-01-06T09:00Z, `FREQ=DAILY`. -/
def curMaster : CurEvent :=
  ⟨some "Standup", some (some 1736154000000), none, some "su", false, none,
   some "FREQ=DAILY", none, none, []⟩

/-- The first record expanded from `curMaster` in the example window. -/
def expandedFirst : PreEvent :=
  ⟨some "su_1736154000000", false, "Standup", some 1736154000000,
   some (some 1736154000000), false, some 0, none⟩

/-! ## Lemmas about `sortEvents` -/

theorem mem_insertSorted {x y : CalendarEvent} {l : List CalendarEvent} :
    y ∈ insertSorted x l ↔ y = x ∨ y ∈ l := by
  induction l with
  | nil => simp [insertSorted]
  | cons z zs ih =>
    by_cases h : (evCmp x z).getD 0 < 0
    · simp [insertSorted, h]
    · simp [insertSorted, h, ih]
      tauto

theorem evCmp_ge {x y : CalendarEvent} (h : ¬ (evCmp x y).getD 0 < 0) :
    allDayFirstAsc y x := by
  unfold evCmp at h
  by_cases h1 : x.allDay = true ∧ ¬ y.allDay = true
  · rw [if_pos h1] at h
    simp at h
  · rw [if_neg h1] at h
    by_cases h2 : ¬ x.allDay = true ∧ y.allDay = true
    · constructor
      · intro hx; exact absurd hx h2.1
      · intro hcl; rw [h2.2] at hcl; exact absurd hcl.symm h2.1
    · have hcls : x.allDay = y.allDay := by
        by_cases hx : x.allDay = true <;> by_cases hy : y.allDay = true <;>
          simp_all
      rw [if_neg h2] at h
      constructor
      · intro hx; rw [← hcls]; exact hx
      · intro _ ta tb hya hxb
        rw [hya, hxb] at h
        simp [jsSubOpt] at h
        omega

theorem evCmp_lt {x y : CalendarEvent} (h : (evCmp x y).getD 0 < 0) :
    allDayFirstAsc x y ∧ ∀ b, allDayFirstAsc y b → allDayFirstAsc x b := by
  unfold evCmp at h
  by_cases h1 : x.allDay = true ∧ ¬ y.allDay = true
  · refine ⟨⟨fun hy => absurd hy h1.2, fun hcl => ?_⟩, fun b hb => ?_⟩
    · rw [h1.1] at hcl; exact absurd hcl.symm h1.2
    · refine ⟨fun hb2 => h1.1, fun hcl ta tb hxa hbb => ?_⟩
      rw [h1.1] at hcl
      exact absurd (hb.1 hcl.symm) h1.2
  · rw [if_neg h1] at h
    by_cases h2 : ¬ x.allDay = true ∧ y.allDay = true
    · rw [if_pos h2] at h
      simp at h
    · have hcls : x.allDay = y.allDay := by
        by_cases hx : x.allDay = true <;> by_cases hy : y.allDay = true <;>
          simp_all
      rw [if_neg h2] at h
      have hsub : ∃ tx ty, x.start = some tx ∧ y.start = some ty ∧ tx < ty := by
        cases hxs : x.start with
        | none => rw [hxs] at h; simp [jsSubOpt] at h
        | some tx =>
          cases hys : y.start with
          | none => rw [hxs, hys] at h; simp [jsSubOpt] at h
          | some ty =>
            rw [hxs, hys] at h; simp [jsSubOpt] at h
            exact ⟨tx, ty, rfl, rfl, by omega⟩
      obtain ⟨tx, ty, hxs, hys, hlt⟩ := hsub
      refine ⟨⟨fun hy => by rw [hcls]; exact hy, ?_⟩, fun b hb => ⟨?_, ?_⟩⟩
      · intro _ ta tb hxa hyb
        rw [hxs] at hxa; rw [hys] at hyb
        cases hxa; cases hyb; omega
      · intro hbd
        rw [hcls]; exact hb.1 hbd
      · intro hclb ta tb hxa hbb
        rw [hxs] at hxa; cases hxa
        have hyb : y.allDay = b.allDay := by rw [← hcls, hclb]
        have := hb.2 hyb ty tb hys hbb
        omega

theorem insertSorted_pairwise {x : CalendarEvent} {l : List CalendarEvent}
    (hl : l.Pairwise allDayFirstAsc) :
    (insertSorted x l).Pairwise allDayFirstAsc := by
  induction l with
  | nil => simp [insertSorted]
  | cons y ys ih =>
    rw [List.pairwise_cons] at hl
    obtain ⟨hy, hys⟩ := hl
    by_cases h : (evCmp x y).getD 0 < 0
    · have hx := evCmp_lt h
      rw [insertSorted, if_pos h, List.pairwise_cons]
      refine ⟨?_, by rw [List.pairwise_cons]; exact ⟨hy, hys⟩⟩
      intro b hb
      rcases List.mem_cons.mp hb with rfl | hbys
      · exact hx.1
      · exact hx.2 b (hy b hbys)
    · have hyx := evCmp_ge h
      rw [insertSorted, if_neg h, List.pairwise_cons]
      refine ⟨?_, ih hys⟩
      intro b hb
      rcases mem_insertSorted.mp hb with rfl | hbys
      · exact hyx
      · exact hy b hbys

/-- The stable sort by `evCmp` — hence the engine's mandated result on
every consistent batch — always satisfies the ordering contract. -/
theorem sortEvents_pairwise (events : List CalendarEvent) :
    (sortEvents events).Pairwise allDayFirstAsc := by
  unfold sortEvents
  have h : ∀ (l : List CalendarEvent) (acc : List CalendarEvent),
      acc.Pairwise allDayFirstAsc →
      (l.foldl (fun acc e => insertSorted e acc) acc).Pairwise
        allDayFirstAsc := by
    intro l
    induction l with
    | nil => intro acc hacc; exact hacc
    | cons e es ih =>
      intro acc hacc
      exact ih _ (insertSorted_pairwise hacc)
  exact h events [] (by simp)

/-- **C7** (amended, sort contract): on every batch on which the source's
comparator is a consistent comparison function — equivalently, every
occurrence's start is a valid date — the `Array.prototype.sort` result is
uniquely determined, and in it a timed occurrence never precedes an
all-day occurrence and any two occurrences of the same group (both
all-day or both timed) appear in ascending start order.  On a batch
containing an invalid start the comparator returns `NaN`, the sort order
is implementation-defined, and the contract can fail (see the
counterexample), so the unconditional claim does not hold. -/
theorem C7_sort_contract_amended (events out : List CalendarEvent)
    (hcons : consistentOn events = true) (hs : jsSortResult events out) :
    out.Pairwise allDayFirstAsc := by
  unfold jsSortResult at hs
  rw [if_pos hcons] at hs
  rw [hs]
  exact sortEvents_pairwise events

theorem C7_sort_contract_amended_witness :
    ([evAllDayD, evTimedD] : List CalendarEvent).Pairwise allDayFirstAsc :=
  C7_sort_contract_amended [evTimedD, evAllDayD] [evAllDayD, evTimedD]
    (by decide) (by unfold jsSortResult; rw [if_pos (by decide)]; rfl)

/-- **C7** (counterexample): the batch of `icalAllDayInvalid` resolves
through deduplication to three all-day occurrences whose starts are
2025-01-15, Invalid Date, 2025-01-10.  The comparator returns `NaN`
against the invalid-start occurrence, so it is not a consistent
comparison function on this batch and `Array.prototype.sort` may return
any permutation — in particular the unchanged batch, which is what V8's
TimSort returns here (its run detection treats the NaN-coerced
comparisons as non-descending).  That conforming result violates the
claimed contract: the two valid-start all-day occurrences stand in
descending start order. -/
theorem C7_counterexample :
    deduplicateEvents 0 (assignIds (oracleConst "r") 0
        (parseICalData 0 (some (exWinS, exWinE)) icalAllDayInvalid)) =
      .ok [evJan15A, evInvalidB, evJan10C] ∧
    consistentOn [evJan15A, evInvalidB, evJan10C] = false ∧
    jsSortResult [evJan15A, evInvalidB, evJan10C]
      [evJan15A, evInvalidB, evJan10C] ∧
    ¬ ([evJan15A, evInvalidB, evJan10C] : List CalendarEvent).Pairwise
        allDayFirstAsc := by
  refine ⟨rfl, rfl, ?_, ?_⟩
  · unfold jsSortResult
    rw [if_neg (by decide)]
  · intro hp
    have h1 := (List.pairwise_cons.mp hp).1 evJan10C (by simp)
    have h2 := h1.2 rfl 1736899200000 1736467200000 rfl rfl
    omega

/-! ## Lemmas about the parser loop -/

theorem runLines_cons (tz : Int) (win : Option (Int × Int)) (s : PState)
    (l : String) (ls : List String) :
    runLines tz win s (l :: ls) = runLines tz win (lineStep tz win s l) ls :=
  rfl

theorem runLines_app (tz : Int) (win : Option (Int × Int)) (s : PState)
    (l1 l2 : List String) :
    runLines tz win s (l1 ++ l2) =
      runLines tz win (runLines tz win s l1) l2 := by
  simp [runLines, List.foldl_append]

theorem lineStep_shift (tz : Int) (win : Option (Int × Int))
    (E : List PreEvent) (b : Bool) (c : CurEvent) (l : String) :
    lineStep tz win ⟨E, b, c⟩ l =
      ⟨E ++ (lineStep tz win ⟨[], b, c⟩ l).events,
       (lineStep tz win ⟨[], b, c⟩ l).inEvent,
       (lineStep tz win ⟨[], b, c⟩ l).cur⟩ := by
  by_cases hB : jsTrim l = "BEGIN:VEVENT"
  · simp [lineStep, hB]
  · by_cases hE : jsTrim l = "END:VEVENT" ∧ b = true
    · simp [lineStep, hB, hE.1, hE.2]
    · by_cases hI : b = true
      · have hEne : ¬ jsTrim l = "END:VEVENT" := fun he => hE ⟨he, hI⟩
        simp [lineStep, hB, hEne, hI]
      · have hbf : b = false := by revert hI; cases b <;> simp
        simp [lineStep, hB, hbf]

theorem runLines_events_shift (tz : Int) (win : Option (Int × Int)) :
    ∀ (ls : List String) (E : List PreEvent) (b : Bool) (c : CurEvent),
    (runLines tz win ⟨E, b, c⟩ ls).events =
      E ++ (runLines tz win ⟨[], b, c⟩ ls).events := by
  intro ls
  induction ls with
  | nil => intro E b c; simp [runLines]
  | cons l ls ih =>
    intro E b c
    rw [runLines_cons, runLines_cons, lineStep_shift]
    rw [ih]
    rw [List.append_assoc, ← ih]

theorem runLines_false_cur (tz : Int) (win : Option (Int × Int)) :
    ∀ (ls : List String) (E : List PreEvent) (c1 c2 : CurEvent),
    (runLines tz win ⟨E, false, c1⟩ ls).events =
      (runLines tz win ⟨E, false, c2⟩ ls).events := by
  intro ls
  induction ls with
  | nil => intro E c1 c2; rfl
  | cons l ls ih =>
    intro E c1 c2
    rw [runLines_cons, runLines_cons]
    by_cases hB : jsTrim l = "BEGIN:VEVENT"
    · have e1 : lineStep tz win ⟨E, false, c1⟩ l = ⟨E, true, emptyCur⟩ := by
        simp [lineStep, hB]
      have e2 : lineStep tz win ⟨E, false, c2⟩ l = ⟨E, true, emptyCur⟩ := by
        simp [lineStep, hB]
      rw [e1, e2]
    · have e1 : lineStep tz win ⟨E, false, c1⟩ l = ⟨E, false, c1⟩ := by
        simp [lineStep, hB]
      have e2 : lineStep tz win ⟨E, false, c2⟩ l = ⟨E, false, c2⟩ := by
        simp [lineStep, hB]
      rw [e1, e2]
      exact ih E c1 c2

theorem runLines_from_false (tz : Int) (win : Option (Int × Int))
    (ls : List String) (E : List PreEvent) (c : CurEvent) :
    (runLines tz win ⟨E, false, c⟩ ls).events = E ++ parseLines tz win ls := by
  rw [runLines_events_shift]
  have := runLines_false_cur tz win ls [] c emptyCur
  rw [this]
  rfl

theorem runLines_block (tz : Int) (win : Option (Int × Int)) :
    ∀ (L : List String) (E : List PreEvent) (c : CurEvent),
    (∀ l ∈ L, jsTrim l ≠ "END:VEVENT") →
    runLines tz win ⟨E, true, c⟩ L = ⟨E, true, blockFold tz c L⟩ := by
  intro L
  induction L with
  | nil => intro E c _; rfl
  | cons l L ih =>
    intro E c hno
    rw [runLines_cons]
    by_cases hB : jsTrim l = "BEGIN:VEVENT"
    · have e1 : lineStep tz win ⟨E, true, c⟩ l = ⟨E, true, emptyCur⟩ := by
        simp [lineStep, hB]
      have e2 : blockFold tz c (l :: L) = blockFold tz emptyCur L := by
        simp [blockFold, hB]
      rw [e1, e2, ih E emptyCur (fun x hx => hno x (List.mem_cons_of_mem l hx))]
    · have hEne : jsTrim l ≠ "END:VEVENT" := hno l (List.mem_cons_self l L)
      have e1 : lineStep tz win ⟨E, true, c⟩ l =
          ⟨E, true, propStep tz c (jsTrim l)⟩ := by
        simp [lineStep, hB, hEne]
      have e2 : blockFold tz c (l :: L) =
          blockFold tz (propStep tz c (jsTrim l)) L := by
        simp [blockFold, hB]
      rw [e1, e2, ih E _ (fun x hx => hno x (List.mem_cons_of_mem l hx))]

theorem parseLines_append (tz : Int) (win : Option (Int × Int))
    (pre post : List String)
    (h : (runLines tz win initPState pre).inEvent = false) :
    parseLines tz win (pre ++ post) =
      parseLines tz win pre ++ parseLines tz win post := by
  unfold parseLines
  rw [runLines_app]
  have hs : runLines tz win initPState pre =
      ⟨(runLines tz win initPState pre).events, false,
       (runLines tz win initPState pre).cur⟩ := by
    rw [← h]
  rw [hs, runLines_from_false]
  rfl

theorem parseLines_insert_block (tz : Int) (win : Option (Int × Int))
    (pre L post : List String)
    (h1 : (runLines tz win initPState pre).inEvent = false)
    (h2 : ∀ l ∈ L, jsTrim l ≠ "END:VEVENT") :
    parseLines tz win
        (pre ++ "BEGIN:VEVENT" :: (L ++ "END:VEVENT" :: post)) =
      parseLines tz win pre ++ endPush tz win (blockCur tz L) ++
        parseLines tz win post := by
  unfold parseLines
  rw [runLines_app, runLines_cons]
  have hs : runLines tz win initPState pre =
      ⟨(runLines tz win initPState pre).events, false,
       (runLines tz win initPState pre).cur⟩ := by
    rw [← h1]
  rw [hs]
  have hBtrim : jsTrim "BEGIN:VEVENT" = "BEGIN:VEVENT" := rfl
  have eB : lineStep tz win
      ⟨(runLines tz win initPState pre).events, false,
       (runLines tz win initPState pre).cur⟩ "BEGIN:VEVENT" =
      ⟨(runLines tz win initPState pre).events, true, emptyCur⟩ := by
    simp [lineStep, hBtrim]
  rw [eB, runLines_app, runLines_block tz win L _ _ h2, runLines_cons]
  have hEtrim : jsTrim "END:VEVENT" = "END:VEVENT" := rfl
  have hne : ¬ (("END:VEVENT" : String) = "BEGIN:VEVENT") := by decide
  have eE : lineStep tz win
      ⟨(runLines tz win initPState pre).events, true, blockFold tz emptyCur L⟩
        "END:VEVENT" =
      ⟨(runLines tz win initPState pre).events ++
         endPush tz win (blockFold tz emptyCur L), false,
       blockFold tz emptyCur L⟩ := by
    simp [lineStep, hEtrim, hne]
  rw [eE, runLines_from_false]
  simp [blockCur, parseLines, List.append_assoc]

/-! ## C6: cancellation suppression -/

/-- **C6** (cancellation suppression): a `VEVENT` block whose `STATUS`
property resolves to `CANCELLED` contributes no record at all — inserting
the block into any input leaves both the parse result and the full resolve
pipeline's output unchanged, regardless of the block's other properties. -/
theorem C6_cancelled_never_output (tz w1 w2 : Int) (oracle : Nat → String)
    (pre L post : List String)
    (h1 : (runLines tz (some (w1, w2)) initPState pre).inEvent = false)
    (h2 : ∀ l ∈ L, jsTrim l ≠ "END:VEVENT")
    (h3 : (blockCur tz L).status = some "CANCELLED") :
    parseLines tz (some (w1, w2))
        (pre ++ "BEGIN:VEVENT" :: (L ++ "END:VEVENT" :: post)) =
      parseLines tz (some (w1, w2)) (pre ++ post) ∧
    resolveLines tz w1 w2 oracle
        (pre ++ "BEGIN:VEVENT" :: (L ++ "END:VEVENT" :: post)) =
      resolveLines tz w1 w2 oracle (pre ++ post) := by
  have hpush : endPush tz (some (w1, w2)) (blockCur tz L) = [] := by
    unfold endPush
    rw [h3]
    simp
  have hp := parseLines_insert_block tz (some (w1, w2)) pre L post h1 h2
  rw [hpush] at hp
  simp only [List.append_nil] at hp
  have ha := parseLines_append tz (some (w1, w2)) pre post h1
  refine ⟨by rw [hp, ha], ?_⟩
  unfold resolveLines
  rw [hp, ha]

/-- Witness for C6 at a concrete input: a cancelled block inserted after a
well-formed block changes nothing. -/
theorem C6_cancelled_never_output_witness :
    parseLines 0 (some (exWinS, exWinE))
        (preStayLines ++ "BEGIN:VEVENT" ::
          (cancelledPropLines ++ "END:VEVENT" :: [])) =
      parseLines 0 (some (exWinS, exWinE)) (preStayLines ++ []) ∧
    resolveLines 0 exWinS exWinE (oracleConst "r")
        (preStayLines ++ "BEGIN:VEVENT" ::
          (cancelledPropLines ++ "END:VEVENT" :: [])) =
      resolveLines 0 exWinS exWinE (oracleConst "r") (preStayLines ++ []) :=
  C6_cancelled_never_output 0 exWinS exWinE (oracleConst "r") preStayLines
    cancelledPropLines [] (by decide) (by decide) (by decide)

/-! ## C8: expansion-failure fallback -/

/-- **C8 (amended)**: a master block whose recurrence rule fails to parse
(e.g. an unrecognized frequency) does not abort resolution; it contributes
exactly one record carrying the master's own single start — included
unconditionally, with no window clamp (this is the amendment: the source
performs no window check on this path) — and every other block still
parses exactly as without it. -/
theorem C8_fallback_unconditional (tz w1 w2 : Int) (pre L post : List String)
    (t : String) (st : Option Int) (r : String)
    (h1 : (runLines tz (some (w1, w2)) initPState pre).inEvent = false)
    (h2 : ∀ l ∈ L, jsTrim l ≠ "END:VEVENT")
    (hSt : (blockCur tz L).status ≠ some "CANCELLED")
    (hTi : (blockCur tz L).title = some t) (hTne : t ≠ "")
    (hStart : (blockCur tz L).start = some st)
    (hRec : (blockCur tz L).recurrenceId = none)
    (hR : (blockCur tz L).rrule = some r)
    (hP : parseRRuleString r = none) :
    parseLines tz (some (w1, w2))
        (pre ++ "BEGIN:VEVENT" :: (L ++ "END:VEVENT" :: post)) =
      parseLines tz (some (w1, w2)) pre ++
        [plainRecord (blockCur tz L) false t st none] ++
        parseLines tz (some (w1, w2)) post := by
  have hpush : endPush tz (some (w1, w2)) (blockCur tz L) =
      [plainRecord (blockCur tz L) false t st none] := by
    unfold endPush expandRecurringEvent
    rw [if_neg hSt, hTi, hStart, hRec, hR]
    simp [hTne, hP]
  have hp := parseLines_insert_block tz (some (w1, w2)) pre L post h1 h2
  rw [hpush] at hp
  exact hp

/-- Witness for C8 at a concrete input: `FREQ=SECONDLY` falls back to the
single master record (whose start lies outside the window). -/
theorem C8_fallback_unconditional_witness :
    parseLines 0 (some (exWinS, exWinE))
        ([] ++ "BEGIN:VEVENT" :: (badFreqPropLines ++ "END:VEVENT" :: [])) =
      parseLines 0 (some (exWinS, exWinE)) [] ++
        [plainRecord (blockCur 0 badFreqPropLines) false "BadRule"
          (some 1893488400000) none] ++
        parseLines 0 (some (exWinS, exWinE)) [] :=
  C8_fallback_unconditional 0 exWinS exWinE [] badFreqPropLines []
    "BadRule" (some 1893488400000) "FREQ=SECONDLY" (by decide) (by decide)
    (by decide) (by decide) (by decide) (by decide) (by decide) (by decide)
    (by decide)

/-- Counterexample to **C8 as stated** (and to the window clamp of **C1**
on the fallback path): a master with an unrecognized frequency whose own
start (2030-01-01T09:00Z) lies far outside the requested window is still
returned by the full pipeline. -/
theorem C8_counterexample :
    resolve 0 exWinS exWinE (oracleConst "r") icalBadFreq =
      .ok [⟨some "d1", "BadRule", some 1893488400000, none, false, none,
            none⟩] ∧
    ¬ (exWinS ≤ 1893488400000 ∧ (1893488400000 : Int) ≤ exWinE) :=
  ⟨rfl, by decide⟩

/-! ## Lemmas about the dedup map -/

theorem lookup_none_forall {m : List (EKey × CalendarEvent)} {k : EKey}
    (h : List.lookup k m = none) : ∀ p ∈ m, p.1 ≠ k := by
  induction m with
  | nil => intro p hp; cases hp
  | cons q m ih =>
    intro p hp
    rw [List.lookup] at h
    by_cases hk : k = q.1
    · simp [hk] at h
    · have hbeq : (k == q.1) = false := by simp [hk]
      rw [hbeq] at h
      rcases List.mem_cons.mp hp with rfl | hpm
      · exact fun hc => hk hc.symm
      · exact ih h p hpm

theorem lookup_mem {m : List (EKey × CalendarEvent)} {k : EKey}
    {v : CalendarEvent} (h : List.lookup k m = some v) : (k, v) ∈ m := by
  induction m with
  | nil => cases h
  | cons q m ih =>
    rw [List.lookup] at h
    by_cases hk : k = q.1
    · simp [hk] at h
      rw [List.mem_cons]
      left
      rw [hk, ← h]
    · have hbeq : (k == q.1) = false := by simp [hk]
      rw [hbeq] at h
      exact List.mem_cons_of_mem q (ih h)

theorem keys_inj {m : List (EKey × CalendarEvent)}
    (h : m.Pairwise (fun p q => p.1 ≠ q.1)) {p q : EKey × CalendarEvent}
    (hp : p ∈ m) (hq : q ∈ m) (hk : p.1 = q.1) : p = q := by
  by_contra hne
  exact (List.Pairwise.forall (fun a b hab => (hab ∘ Eq.symm)) h hp hq hne) hk

theorem mem_mapSet_cases {m : List (EKey × CalendarEvent)} {k : EKey}
    {e : CalendarEvent} {q : EKey × CalendarEvent} (hq : q ∈ mapSet m k e) :
    q = (k, e) ∨ (q ∈ m ∧ q.1 ≠ k) := by
  unfold mapSet at hq
  by_cases h : (List.lookup k m).isSome
  · rw [if_pos h] at hq
    obtain ⟨p, hpm, hpe⟩ := List.mem_map.mp hq
    by_cases hpk : p.1 = k
    · left; rw [← hpe, if_pos hpk]
    · right; rw [← hpe, if_neg hpk]; exact ⟨hpm, hpk⟩
  · rw [if_neg h] at hq
    rcases List.mem_append.mp hq with hqm | hqe
    · right
      refine ⟨hqm, ?_⟩
      have hnone : List.lookup k m = none := by
        cases hlk : List.lookup k m with
        | none => rfl
        | some v => rw [hlk] at h; simp at h
      exact lookup_none_forall hnone q hqm
    · left; simpa using hqe

theorem mem_mapSet_of_ne {m : List (EKey × CalendarEvent)} {k : EKey}
    {e : CalendarEvent} {p : EKey × CalendarEvent} (hp : p ∈ m)
    (hne : p.1 ≠ k) : p ∈ mapSet m k e := by
  unfold mapSet
  by_cases h : (List.lookup k m).isSome
  · rw [if_pos h]
    exact List.mem_map.mpr ⟨p, hp, by rw [if_neg hne]⟩
  · rw [if_neg h]
    exact List.mem_append_left _ hp

theorem mapSet_self {m : List (EKey × CalendarEvent)} {k : EKey}
    {e : CalendarEvent} : (k, e) ∈ mapSet m k e := by
  unfold mapSet
  by_cases h : (List.lookup k m).isSome
  · rw [if_pos h]
    obtain ⟨v, hv⟩ := Option.isSome_iff_exists.mp h
    exact List.mem_map.mpr ⟨(k, v), lookup_mem hv, by simp⟩
  · rw [if_neg h]
    exact List.mem_append_right _ (by simp)

theorem mapSet_keys_pairwise {m : List (EKey × CalendarEvent)} {k : EKey}
    {e : CalendarEvent} (h : m.Pairwise (fun p q => p.1 ≠ q.1)) :
    (mapSet m k e).Pairwise (fun p q => p.1 ≠ q.1) := by
  unfold mapSet
  by_cases hs : (List.lookup k m).isSome
  · rw [if_pos hs, List.pairwise_map]
    refine h.imp_of_mem ?_
    intro p q hp hq hne
    by_cases hpk : p.1 = k <;> by_cases hqk : q.1 = k <;>
      simp [hpk, hqk] at * <;> tauto
  · rw [if_neg hs, List.pairwise_append]
    have hnone : List.lookup k m = none := by
      cases hlk : List.lookup k m with
      | none => rfl
      | some v => rw [hlk] at hs; simp at hs
    refine ⟨h, by simp, ?_⟩
    intro p hp q hq
    simp at hq
    rw [hq]
    exact lookup_none_forall hnone p hp

theorem dayKey_not_instant {tz : Int} {e : CalendarEvent} {k : EKey}
    (h : dayKey tz e = .ok k) : ∀ ms, k.2 ≠ DTag.instant ms := by
  unfold dayKey at h
  by_cases ha : e.allDay = true
  · rw [if_pos ha] at h
    cases h
    simp
  · rw [if_neg ha] at h
    cases hs : e.start with
    | none => rw [hs] at h; cases h
    | some ms => rw [hs] at h; cases h; simp

theorem timeKey_shape {e : CalendarEvent} {k : EKey}
    (h : timeKey e = .ok k) :
    ∃ ms, e.start = some ms ∧ k = (e.title, DTag.instant ms) := by
  unfold timeKey at h
  cases hs : e.start with
  | none => rw [hs] at h; cases h
  | some ms => rw [hs] at h; cases h; exact ⟨ms, rfl, rfl⟩

theorem dayKey_congr {tz : Int} {a b : CalendarEvent}
    (ht : a.title = b.title) (had : a.allDay = b.allDay)
    (hst : a.start = b.start) : dayKey tz a = dayKey tz b := by
  unfold dayKey
  rw [ht, had, hst]

theorem timeKey_congr {a b : CalendarEvent} (ht : a.title = b.title)
    (hst : a.start = b.start) : timeKey a = timeKey b := by
  unfold timeKey
  rw [ht, hst]

theorem timeKey_dayKey_absurd {tz : Int} {e1 e2 : CalendarEvent} {k : EKey}
    (hdk : dayKey tz e1 = .ok k) (htp : timeKey e2 = .ok k) : False := by
  obtain ⟨ms, _, hk2⟩ := timeKey_shape htp
  exact dayKey_not_instant hdk ms (by rw [hk2])

theorem exceptBind_ok {α β : Type} (a : α) (f : α → Except Unit β) :
    (Except.ok a >>= f) = f a := rfl

theorem exceptBind_err {α β : Type} (f : α → Except Unit β) :
    ((Except.error () : Except Unit α) >>= f) = Except.error () := rfl

theorem dedupStep_props {tz : Int} {m m1 : List (EKey × CalendarEvent)}
    {e : CalendarEvent} (h : dedupStep tz m e = .ok m1)
    (hInv : dedupInv tz m) :
    dedupInv tz m1 ∧
    (∀ q ∈ m, dayKey tz q.2 = .ok q.1 →
      ∃ r ∈ m1, r.1 = q.1 ∧ dayKey tz r.2 = .ok q.1 ∧ seqN q.2 ≤ seqN r.2) ∧
    (∀ k, dayKey tz e = .ok k →
      ∃ r ∈ m1, r.1 = k ∧ dayKey tz r.2 = .ok k ∧ seqN e ≤ seqN r.2) := by
  obtain ⟨hKeys, hDisj, hI3⟩ := hInv
  unfold dedupStep at h
  cases hdk : dayKey tz e with
  | error u => rw [hdk, exceptBind_err] at h; cases h
  | ok k =>
  rw [hdk, exceptBind_ok] at h
  have hdk_unique : ∀ k', (Except.ok k : Except Unit EKey) = Except.ok k' →
      k' = k := fun k' hk' => (Except.ok.inj hk').symm
  cases hlk : List.lookup k m with
  | none =>
    rw [hlk] at h
    have hm1 : m1 = mapSet m k e := (Except.ok.inj h).symm
    have hnone : ∀ p ∈ m, p.1 ≠ k := lookup_none_forall hlk
    subst hm1
    refine ⟨⟨mapSet_keys_pairwise hKeys, ?_, ?_⟩, ?_, ?_⟩
    · intro p hp
      rcases mem_mapSet_cases hp with rfl | ⟨hpm, _⟩
      · exact Or.inl hdk
      · exact hDisj p hpm
    · intro p hp htp
      rcases mem_mapSet_cases hp with rfl | ⟨hpm, hpk⟩
      · exact (timeKey_dayKey_absurd hdk htp).elim
      · obtain ⟨q, hqm, hdq, hle, hd2⟩ := hI3 p hpm htp
        exact ⟨q, mem_mapSet_of_ne hqm (hnone q hqm), hdq, hle, hd2⟩
    · intro q hqm hdq
      exact ⟨q, mem_mapSet_of_ne hqm (hnone q hqm), rfl, hdq, le_refl _⟩
    · intro k' hk'
      rw [hdk_unique k' hk']
      exact ⟨(k, e), mapSet_self, rfl, hdk, le_refl _⟩
  | some ex =>
    rw [hlk] at h
    replace h : (if seqN e > seqN ex then
          (pure (mapSet m k e) : Except Unit (List (EKey × CalendarEvent)))
        else if seqN e = seqN ex ∧ jsNeqTime e.start ex.start = true then do
          let tk ← timeKey e
          pure (mapSet m tk e)
        else pure m) = Except.ok m1 := h
    have hexm : (k, ex) ∈ m := lookup_mem hlk
    have hdkex : dayKey tz ex = .ok k := by
      rcases hDisj (k, ex) hexm with h1 | h2
      · exact h1
      · exact (timeKey_dayKey_absurd hdk h2).elim
    by_cases hgt : seqN e > seqN ex
    · rw [if_pos hgt] at h
      have hm1 : m1 = mapSet m k e := (Except.ok.inj h).symm
      subst hm1
      refine ⟨⟨mapSet_keys_pairwise hKeys, ?_, ?_⟩, ?_, ?_⟩
      · intro p hp
        rcases mem_mapSet_cases hp with rfl | ⟨hpm, _⟩
        · exact Or.inl hdk
        · exact hDisj p hpm
      · intro p hp htp
        rcases mem_mapSet_cases hp with rfl | ⟨hpm, hpk⟩
        · exact (timeKey_dayKey_absurd hdk htp).elim
        · obtain ⟨q, hqm, hdq, hle, hd2⟩ := hI3 p hpm htp
          by_cases hqk : q.1 = k
          · have hqex : q = (k, ex) := keys_inj hKeys hqm hexm hqk
            refine ⟨(k, e), mapSet_self, by rw [hdq, hqk], ?_, Or.inl ?_⟩
            · have : seqN q.2 ≤ seqN e := by
                rw [hqex]
                exact le_of_lt hgt
              exact le_trans hle this
            · have : seqN q.2 < seqN e := by rw [hqex]; exact hgt
              exact lt_of_le_of_lt hle this
          · exact ⟨q, mem_mapSet_of_ne hqm hqk, hdq, hle, hd2⟩
      · intro q hqm hdq
        by_cases hqk : q.1 = k
        · have hqex : q = (k, ex) := keys_inj hKeys hqm hexm hqk
          refine ⟨(k, e), mapSet_self, hqk.symm, by rw [hqk]; exact hdk, ?_⟩
          rw [hqex]
          exact le_of_lt hgt
        · exact ⟨q, mem_mapSet_of_ne hqm hqk, rfl, hdq, le_refl _⟩
      · intro k' hk'
        rw [hdk_unique k' hk']
        exact ⟨(k, e), mapSet_self, rfl, hdk, le_refl _⟩
    · rw [if_neg hgt] at h
      by_cases heqne : seqN e = seqN ex ∧ jsNeqTime e.start ex.start = true
      · rw [if_pos heqne] at h
        cases htk : timeKey e with
        | error u => rw [htk, exceptBind_err] at h; cases h
        | ok tk =>
        rw [htk, exceptBind_ok] at h
        have hm1 : m1 = mapSet m tk e := (Except.ok.inj h).symm
        subst hm1
        have htk_inst : ∃ ms, tk.2 = DTag.instant ms := by
          obtain ⟨ms, _, hk2⟩ := timeKey_shape htk
          exact ⟨ms, by rw [hk2]⟩
        have hday_ne_tk : ∀ (ev : CalendarEvent) (kk : EKey),
            dayKey tz ev = .ok kk → kk ≠ tk := by
          intro ev kk hkk hcontra
          obtain ⟨ms, hms⟩ := htk_inst
          exact dayKey_not_instant hkk ms (by rw [hcontra, hms])
        refine ⟨⟨mapSet_keys_pairwise hKeys, ?_, ?_⟩, ?_, ?_⟩
        · intro p hp
          rcases mem_mapSet_cases hp with rfl | ⟨hpm, _⟩
          · exact Or.inr htk
          · exact hDisj p hpm
        · intro p hp htp
          rcases mem_mapSet_cases hp with rfl | ⟨hpm, hpk⟩
          · refine ⟨(k, ex),
              mem_mapSet_of_ne hexm (hday_ne_tk e k hdk), hdk, ?_,
              Or.inr heqne.2⟩
            rw [heqne.1]
          · obtain ⟨q, hqm, hdq, hle, hd2⟩ := hI3 p hpm htp
            exact ⟨q, mem_mapSet_of_ne hqm (hday_ne_tk p.2 q.1 hdq), hdq,
              hle, hd2⟩
        · intro q hqm hdq
          exact ⟨q, mem_mapSet_of_ne hqm (hday_ne_tk q.2 q.1 hdq), rfl, hdq,
            le_refl _⟩
        · intro k' hk'
          rw [hdk_unique k' hk']
          refine ⟨(k, ex), mem_mapSet_of_ne hexm (hday_ne_tk e k hdk), rfl,
            hdkex, ?_⟩
          rw [heqne.1]
      · rw [if_neg heqne] at h
        have hm1 : m1 = m := (Except.ok.inj h).symm
        subst hm1
        refine ⟨⟨hKeys, hDisj, hI3⟩, ?_, ?_⟩
        · intro q hqm hdq
          exact ⟨q, hqm, rfl, hdq, le_refl _⟩
        · intro k' hk'
          rw [hdk_unique k' hk']
          exact ⟨(k, ex), hexm, rfl, hdkex, le_of_not_lt hgt⟩

theorem dedupFold_props (tz : Int) :
    ∀ (evs : List CalendarEvent) (m m1 : List (EKey × CalendarEvent)),
    List.foldlM (dedupStep tz) m evs = .ok m1 → dedupInv tz m →
    dedupInv tz m1 ∧
    (∀ q ∈ m, dayKey tz q.2 = .ok q.1 →
      ∃ r ∈ m1, r.1 = q.1 ∧ dayKey tz r.2 = .ok q.1 ∧ seqN q.2 ≤ seqN r.2) ∧
    (∀ e ∈ evs, ∀ k, dayKey tz e = .ok k →
      ∃ r ∈ m1, r.1 = k ∧ dayKey tz r.2 = .ok k ∧ seqN e ≤ seqN r.2) := by
  intro evs
  induction evs with
  | nil =>
    intro m m1 h hInv
    have hm1 : m1 = m := (Except.ok.inj h).symm
    subst hm1
    exact ⟨hInv, fun q hq hk => ⟨q, hq, rfl, hk, le_refl _⟩, by simp⟩
  | cons e es ih =>
    intro m m1 h hInv
    rw [List.foldlM_cons] at h
    cases hstep : dedupStep tz m e with
    | error u =>
      rw [hstep, exceptBind_err] at h
      cases h
    | ok mmid =>
      rw [hstep, exceptBind_ok] at h
      obtain ⟨hInvMid, hPersistMid, hNewMid⟩ := dedupStep_props hstep hInv
      obtain ⟨hInv1, hPersist1, hAll1⟩ := ih mmid m1 h hInvMid
      have hCompose : ∀ q ∈ mmid, dayKey tz q.2 = .ok q.1 →
          ∃ r ∈ m1, r.1 = q.1 ∧ dayKey tz r.2 = .ok q.1 ∧
            seqN q.2 ≤ seqN r.2 := hPersist1
      refine ⟨hInv1, ?_, ?_⟩
      · intro q hq hk
        obtain ⟨r1, hr1m, hr11, hr1k, hr1s⟩ := hPersistMid q hq hk
        obtain ⟨r2, hr2m, hr21, hr2k, hr2s⟩ := hCompose r1 hr1m
          (by rw [hr11]; exact hr1k)
        refine ⟨r2, hr2m, by rw [hr21, hr11], ?_, le_trans hr1s hr2s⟩
        rw [hr11] at hr2k
        exact hr2k
      · intro e0 he0 k hk
        rcases List.mem_cons.mp he0 with rfl | hes
        · obtain ⟨r1, hr1m, hr11, hr1k, hr1s⟩ := hNewMid k hk
          obtain ⟨r2, hr2m, hr21, hr2k, hr2s⟩ := hCompose r1 hr1m
            (by rw [hr11]; exact hr1k)
          refine ⟨r2, hr2m, by rw [hr21, hr11], ?_, le_trans hr1s hr2s⟩
          rw [hr11] at hr2k
          exact hr2k
        · exact hAll1 e0 hes k hk

/-! ## C4: no duplicate identity -/

/-- **C4 (amended)**: whenever `deduplicateEvents` succeeds, no two
occurrences in its output agree simultaneously on title, all-day flag,
exact (valid) start instant, and effective sequence (`SEQUENCE` absent
counted as 0).  (The claim's bare `(title, exact start instant)` pair is
refuted by `C4_counterexample`: occurrences differing in all-day flag — or
in effective sequence, via the equal-sequence re-key — can share both.) -/
theorem C4_no_duplicate_identity (tz : Int) (events out : List CalendarEvent)
    (h : deduplicateEvents tz events = .ok out) :
    out.Pairwise (fun a b => a.title = b.title → a.allDay = b.allDay →
      a.start = b.start → a.start.isSome = true → seqN a ≠ seqN b) := by
  unfold deduplicateEvents at h
  cases hmods : modifiedOccurrences tz events with
  | error u => rw [hmods, exceptBind_err] at h; cases h
  | ok mods =>
  rw [hmods, exceptBind_ok] at h
  cases hfilt : filterModified tz mods events with
  | error u => rw [hfilt, exceptBind_err] at h; cases h
  | ok filtered =>
  rw [hfilt, exceptBind_ok] at h
  cases hfold : List.foldlM (dedupStep tz) ([] : List (EKey × CalendarEvent))
      filtered with
  | error u => rw [hfold, exceptBind_err] at h; cases h
  | ok m =>
  rw [hfold, exceptBind_ok] at h
  have hout : out = m.map (·.2) := (Except.ok.inj h).symm
  subst hout
  have hInvNil : dedupInv tz [] := ⟨List.Pairwise.nil, by simp, by simp⟩
  obtain ⟨⟨hKeys, hDisj, hI3⟩, _, _⟩ :=
    dedupFold_props tz filtered [] m hfold hInvNil
  rw [List.pairwise_map]
  refine hKeys.imp_of_mem ?_
  intro p q hp hq hne hT hAD hS hV hseq
  have hdkpq : dayKey tz p.2 = dayKey tz q.2 := dayKey_congr hT hAD hS
  have htkpq : timeKey p.2 = timeKey q.2 := timeKey_congr hT hS
  obtain ⟨ms, hms⟩ := Option.isSome_iff_exists.mp hV
  have hmsp : p.2.start = some ms := hms
  have hmsq : q.2.start = some ms := by rw [← hS]; exact hms
  rcases hDisj p hp with hpd | hpt
  · rcases hDisj q hq with hqd | hqt
    · exact hne (Except.ok.inj (hpd.symm.trans (hdkpq.trans hqd)))
    · -- p is a day entry, q a re-keyed entry
      obtain ⟨w, hwm, hwd, hwle, hwdisj⟩ := hI3 q hq hqt
      have hwp : w = p := by
        apply keys_inj hKeys hwm hp
        have hthis : dayKey tz q.2 = .ok w.1 := hwd
        rw [← hdkpq] at hthis
        exact (Except.ok.inj (hpd.symm.trans hthis)).symm
      rw [hwp] at hwdisj
      rcases hwdisj with hlt | hneq
      · rw [hseq] at hlt
        exact lt_irrefl _ hlt
      · rw [hmsq, hmsp] at hneq
        simp [jsNeqTime] at hneq
  · rcases hDisj q hq with hqd | hqt
    · -- p is a re-keyed entry, q a day entry
      obtain ⟨w, hwm, hwd, hwle, hwdisj⟩ := hI3 p hp hpt
      have hwq : w = q := by
        apply keys_inj hKeys hwm hq
        have hthis : dayKey tz p.2 = .ok w.1 := hwd
        rw [hdkpq] at hthis
        exact (Except.ok.inj (hqd.symm.trans hthis)).symm
      rw [hwq] at hwdisj
      rcases hwdisj with hlt | hneq
      · rw [hseq] at hlt
        exact lt_irrefl _ hlt
      · rw [hmsp, hmsq] at hneq
        simp [jsNeqTime] at hneq
    · exact hne (Except.ok.inj (hpt.symm.trans (htkpq.trans hqt)))

/-- Witness for C4 at a concrete input: two occurrences differing in the
all-day flag survive deduplication, and the amended pairwise-distinctness
holds on the result. -/
theorem C4_no_duplicate_identity_witness :
    ([evAllDayD, evTimedD] : List CalendarEvent).Pairwise
      (fun a b => a.title = b.title → a.allDay = b.allDay →
        a.start = b.start → a.start.isSome = true → seqN a ≠ seqN b) :=
  C4_no_duplicate_identity 0 [evAllDayD, evTimedD] [evAllDayD, evTimedD] rfl

/-- Counterexample to **C4 as stated**: an all-day block and a timed block
with the same title whose starts denote the same instant both survive the
full pipeline, so two returned occurrences share `(title, exact start
instant)`. -/
theorem C4_counterexample :
    resolve 0 exWinS exWinE (oracleConst "r") icalAllDayTimedPair =
      .ok [evAllDayD, evTimedD] ∧
    evAllDayD.title = evTimedD.title ∧ evAllDayD.start = evTimedD.start ∧
    evAllDayD ≠ evTimedD :=
  ⟨rfl, rfl, rfl, by decide⟩

/-! ## C3: sequence supersession -/

theorem exceptPure_bind {α β : Type} (a : α) (f : α → Except Unit β) :
    ((pure a : Except Unit α) >>= f) = f a := rfl

theorem pureExcept {α : Type} (a : α) :
    (pure a : Except Unit α) = Except.ok a := rfl

theorem exceptMap_ok {α β : Type} (f : α → β) (a : α) :
    (f <$> (Except.ok a : Except Unit α)) = Except.ok (f a) := rfl

theorem filterModified_mem (tz : Int) (mods : List EKey) :
    ∀ (evs acc out : List CalendarEvent),
    List.foldlM (fun acc e =>
      if e.sequence ≠ some 0 ∨ e.recurrenceId.isSome then pure (acc ++ [e])
      else do
        let k ← dayKey tz e
        pure (if k ∈ mods then acc else acc ++ [e])) acc evs = .ok out →
    (∀ x ∈ acc, x ∈ out) ∧
    (∀ e ∈ evs, (e.sequence ≠ some 0 ∨ e.recurrenceId.isSome) → e ∈ out) := by
  intro evs
  induction evs with
  | nil =>
    intro acc out h
    have hout : out = acc := (Except.ok.inj h).symm
    subst hout
    exact ⟨fun x hx => hx, by simp⟩
  | cons e es ih =>
    intro acc out h
    rw [List.foldlM_cons] at h
    by_cases hc : e.sequence ≠ some 0 ∨ e.recurrenceId.isSome
    · rw [if_pos hc, exceptPure_bind] at h
      obtain ⟨hmono, hall⟩ := ih (acc ++ [e]) out h
      refine ⟨fun x hx => hmono x (List.mem_append_left _ hx), ?_⟩
      intro e0 he0 hcond
      rcases List.mem_cons.mp he0 with rfl | hes
      · exact hmono e0 (List.mem_append_right _ (by simp))
      · exact hall e0 hes hcond
    · rw [if_neg hc] at h
      cases hdk : dayKey tz e with
      | error u => rw [hdk, exceptBind_err] at h; cases h
      | ok k =>
        rw [hdk, exceptBind_ok, exceptPure_bind] at h
        by_cases hk : k ∈ mods
        · rw [if_pos hk] at h
          obtain ⟨hmono, hall⟩ := ih acc out h
          refine ⟨hmono, ?_⟩
          intro e0 he0 hcond
          rcases List.mem_cons.mp he0 with rfl | hes
          · exact absurd hcond hc
          · exact hall e0 hes hcond
        · rw [if_neg hk] at h
          obtain ⟨hmono, hall⟩ := ih (acc ++ [e]) out h
          refine ⟨fun x hx => hmono x (List.mem_append_left _ hx), ?_⟩
          intro e0 he0 hcond
          rcases List.mem_cons.mp he0 with rfl | hes
          · exact absurd hcond hc
          · exact hall e0 hes hcond

/-- **C3 (amended)** (sequence supersession): two records with the same
`(title, calendar-day-of-start)` key and sequences 0 and 1 resolve, in
either input order, to exactly the sequence-1 record.  In general the
day-keyed representative of each group carries at least the effective
sequence of every event that reached the dedup map (re-keyed
equal-sequence occurrences may additionally survive — the claim's
"keeps only the highest-sequence occurrence" is refuted by
`C3_counterexample`). -/
theorem C3_sequence_supersession :
    (∀ (tz : Int) (a b : CalendarEvent) (k : EKey),
      dayKey tz a = .ok k → dayKey tz b = .ok k →
      a.sequence = some 0 → b.sequence = some 1 →
      a.recurrenceId = none → b.recurrenceId = none →
      deduplicateEvents tz [a, b] = .ok [b] ∧
      deduplicateEvents tz [b, a] = .ok [b]) ∧
    (∀ (tz : Int) (events : List CalendarEvent) (mods : List EKey)
        (filtered out : List CalendarEvent),
      modifiedOccurrences tz events = .ok mods →
      filterModified tz mods events = .ok filtered →
      deduplicateEvents tz events = .ok out →
      ∀ e ∈ filtered, ∀ k, dayKey tz e = .ok k →
        ∃ r ∈ out, dayKey tz r = .ok k ∧ seqN e ≤ seqN r) := by
  constructor
  · intro tz a b k hka hkb haS hbS haR hbR
    have hsa : seqN a = 0 := by simp [seqN, haS]
    have hsb : seqN b = 1 := by simp [seqN, hbS]
    have hmods : modifiedOccurrences tz [a, b] = .ok [] := by
      simp [modifiedOccurrences, List.foldlM, haR, hbR, pureExcept,
        exceptBind_ok]
    have hmods2 : modifiedOccurrences tz [b, a] = .ok [] := by
      simp [modifiedOccurrences, List.foldlM, haR, hbR, pureExcept,
        exceptBind_ok]
    have hfilt : filterModified tz [] [a, b] = .ok [a, b] := by
      simp [filterModified, List.foldlM, haS, hbS, haR, hbR, hka, hkb,
        pureExcept, exceptMap_ok, exceptBind_ok]
    have hfilt2 : filterModified tz [] [b, a] = .ok [b, a] := by
      simp [filterModified, List.foldlM, haS, hbS, haR, hbR, hka, hkb,
        pureExcept, exceptMap_ok, exceptBind_ok]
    have hstep1 : dedupStep tz [] a = .ok [(k, a)] := by
      unfold dedupStep
      rw [hka, exceptBind_ok]
      simp [List.lookup, mapSet, pureExcept]
    have hstep1b : dedupStep tz [] b = .ok [(k, b)] := by
      unfold dedupStep
      rw [hkb, exceptBind_ok]
      simp [List.lookup, mapSet, pureExcept]
    have hlook : List.lookup k [(k, a)] = some a := by simp [List.lookup]
    have hlookb : List.lookup k [(k, b)] = some b := by simp [List.lookup]
    have hstep2 : dedupStep tz [(k, a)] b = .ok [(k, b)] := by
      unfold dedupStep
      rw [hkb, exceptBind_ok, hlook]
      show (if seqN b > seqN a then
          (pure (mapSet [(k, a)] k b) :
            Except Unit (List (EKey × CalendarEvent)))
        else if seqN b = seqN a ∧ jsNeqTime b.start a.start = true then do
          let tk ← timeKey b
          pure (mapSet [(k, a)] tk b)
        else pure [(k, a)]) = Except.ok [(k, b)]
      rw [if_pos (by rw [hsa, hsb]; norm_num)]
      simp [mapSet, List.lookup, pureExcept]
    have hstep2b : dedupStep tz [(k, b)] a = .ok [(k, b)] := by
      unfold dedupStep
      rw [hka, exceptBind_ok, hlookb]
      show (if seqN a > seqN b then
          (pure (mapSet [(k, b)] k a) :
            Except Unit (List (EKey × CalendarEvent)))
        else if seqN a = seqN b ∧ jsNeqTime a.start b.start = true then do
          let tk ← timeKey a
          pure (mapSet [(k, b)] tk a)
        else pure [(k, b)]) = Except.ok [(k, b)]
      rw [if_neg (by rw [hsa, hsb]; norm_num)]
      rw [if_neg (by rw [hsa, hsb]; norm_num)]
      rfl
    constructor
    · unfold deduplicateEvents
      rw [hmods, exceptBind_ok, hfilt, exceptBind_ok, List.foldlM_cons,
        hstep1, exceptBind_ok, List.foldlM_cons, hstep2, exceptBind_ok,
        List.foldlM_nil]
      rfl
    · unfold deduplicateEvents
      rw [hmods2, exceptBind_ok, hfilt2, exceptBind_ok, List.foldlM_cons,
        hstep1b, exceptBind_ok, List.foldlM_cons, hstep2b, exceptBind_ok,
        List.foldlM_nil]
      rfl
  · intro tz events mods filtered out hm hf hd e he k hk
    unfold deduplicateEvents at hd
    rw [hm, exceptBind_ok, hf, exceptBind_ok] at hd
    cases hfold : List.foldlM (dedupStep tz)
        ([] : List (EKey × CalendarEvent)) filtered with
    | error u => rw [hfold, exceptBind_err] at hd; cases hd
    | ok m =>
      rw [hfold, exceptBind_ok] at hd
      have hout : out = m.map (·.2) := (Except.ok.inj hd).symm
      have hInvNil : dedupInv tz [] := ⟨List.Pairwise.nil, by simp, by simp⟩
      obtain ⟨_, _, hAll⟩ := dedupFold_props tz filtered [] m hfold hInvNil
      obtain ⟨r, hrm, _, hrk, hrs⟩ := hAll e he k hk
      refine ⟨r.2, ?_, hrk, hrs⟩
      rw [hout]
      exact List.mem_map_of_mem _ hrm

/-- Witness for C3 at concrete records: sequences 0 and 1 on the same
title and day resolve to the sequence-1 record in either order. -/
theorem C3_sequence_supersession_witness :
    deduplicateEvents 0 [evS0, evS1] = .ok [evS1] ∧
    deduplicateEvents 0 [evS1, evS0] = .ok [evS1] :=
  C3_sequence_supersession.1 0 evS0 evS1 ("P", .utcD 20098) rfl
    rfl (by decide) (by decide) (by decide) (by decide)

/-- Counterexample to **C3's general clause**: with three same-title
same-day records of sequences 0, 0 and 2, the resolved output retains a
sequence-0 occurrence (re-keyed on the earlier sequence tie) alongside the
sequence-2 one, so the stage does not keep only the highest-sequence
occurrence per `(title, day)` group. -/
theorem C3_counterexample :
    resolve 0 exWinS exWinE (oracleConst "r") icalSeqTrio =
      .ok [⟨some "a2", "S", some 1736503200000, none, false, some 0, none⟩,
           ⟨some "a3", "S", some 1736506800000, none, false, some 2, none⟩] ∧
    utcDay 1736503200000 = utcDay 1736506800000 :=
  ⟨rfl, by decide⟩

/-! ## C10: expanded occurrences and exception-filter eligibility -/

/-- **C10 (amended)**: (a) every occurrence produced by a successful,
non-empty recurrence expansion carries `sequence` 0 and no
recurrence-override reference; (b) the exception filter retains every
record whose `SEQUENCE` differs from 0 (including absent) or which carries
a `recurrence-id`; (c) hence only records with sequence exactly 0 and no
recurrence-id — expanded ones or standalone records with an explicit
`SEQUENCE:0`, see `C10_counterexample` — can be suppressed. -/
theorem C10_expanded_sequence_zero :
    (∀ (tz w1 w2 : Int) (cur : CurEvent) (t : String) (st : Option Int)
        (rle : String) (ru : RRuleData),
      parseRRuleString rle = some ru →
      (rruleBetween ru st w1 w2).filter
        (fun o => decide (o ∉ cur.exdates.filterMap id)) ≠ [] →
      ∀ e ∈ expandRecurringEvent tz (some (w1, w2)) cur t st rle,
        e.sequence = some 0 ∧ e.recurrenceId = none) ∧
    (∀ (tz : Int) (mods : List EKey) (events filtered : List CalendarEvent),
      filterModified tz mods events = .ok filtered →
      ∀ e ∈ events, (e.sequence ≠ some 0 ∨ e.recurrenceId.isSome) →
        e ∈ filtered) ∧
    (∀ (tz : Int) (mods : List EKey) (events filtered : List CalendarEvent),
      filterModified tz mods events = .ok filtered →
      ∀ e ∈ events, e ∉ filtered →
        e.sequence = some 0 ∧ e.recurrenceId = none) := by
  refine ⟨?_, ?_, ?_⟩
  · intro tz w1 w2 cur t st rle ru hru hne e he
    unfold expandRecurringEvent at he
    rw [hru] at he
    replace he : e ∈ expandWithRule tz w1 w2 cur t st ru := he
    unfold expandWithRule at he
    have hcond : (((rruleBetween ru st w1 w2).filter
        (fun o => decide (o ∉ cur.exdates.filterMap id))).map
          (expandedRecord tz cur t
            (match cur.evEnd with
             | some e => jsSubOpt e st
             | none => some 0))).length > 0 := by
      rw [List.length_map]
      exact List.length_pos.mpr hne
    rw [if_pos hcond] at he
    obtain ⟨occ, _, hocc⟩ := List.mem_map.mp he
    rw [← hocc]
    exact ⟨rfl, rfl⟩
  · intro tz mods events filtered hf e he hcond
    unfold filterModified at hf
    exact (filterModified_mem tz mods events [] filtered hf).2 e he hcond
  · intro tz mods events filtered hf e he hnot
    by_cases hseq : e.sequence = some 0
    · by_cases hrec : e.recurrenceId = none
      · exact ⟨hseq, hrec⟩
      · have : e.recurrenceId.isSome := by
          cases hr : e.recurrenceId with
          | none => exact absurd hr hrec
          | some v => simp
        exact absurd ((filterModified_mem tz mods events [] filtered
          (by unfold filterModified at hf; exact hf)).2 e he (Or.inr this))
          hnot
    · exact absurd ((filterModified_mem tz mods events [] filtered
        (by unfold filterModified at hf; exact hf)).2 e he (Or.inl hseq))
        hnot

/-- Witness for C10 at concrete inputs: the first expanded occurrence of a
daily master carries sequence 0 and no override reference, and a record is
retained by the exception filter. -/
theorem C10_expanded_sequence_zero_witness :
    (expandedFirst.sequence = some 0 ∧ expandedFirst.recurrenceId = none) ∧
    evS1 ∈ [evS1] :=
  ⟨C10_expanded_sequence_zero.1 0 exWinS exWinE curMaster "Standup"
      (some 1736154000000) "FREQ=DAILY" ⟨Freq.daily, 1, none⟩ (by decide)
      (by decide) expandedFirst (by decide),
   C10_expanded_sequence_zero.2.1 0 [] [evS1] [evS1] rfl evS1 (by decide)
      (by decide)⟩

/-- Counterexample to **C10's "only expanded records are eligible"**: a
standalone block carrying an explicit `SEQUENCE:0` (never expanded from any
rule) is suppressed by a matching exception; only the exception survives. -/
theorem C10_counterexample :
    resolve 0 exWinS exWinE (oracleConst "r") icalSeqZeroSuppressed =
      .ok [⟨some "u2", "T", some 1736521200000, none, false, none,
            some (some 1736499600000)⟩] :=
  rfl

/-! ## C1: window containment -/

/-- **C1 (amended)**: every instant produced by the (spec-modelled)
recurrence enumeration lies inside `[wStart, wEnd]` inclusive, and hence
every occurrence expanded from a non-all-day master through a successfully
parsed rule has its start inside the window.  (The claim's universal form —
covering standalone records and the expansion-failure fallback — is refuted
by `C1_counterexample`: those paths perform no window filter at all.) -/
theorem C1_window_containment_amended :
    (∀ (r : RRuleData) (st : Option Int) (w1 w2 t : Int),
      t ∈ rruleBetween r st w1 w2 → w1 ≤ t ∧ t ≤ w2) ∧
    (∀ (tz w1 w2 : Int) (cur : CurEvent) (t : String) (st : Option Int)
        (rle : String) (ru : RRuleData) (e : PreEvent),
      parseRRuleString rle = some ru → cur.allDay = false →
      (rruleBetween ru st w1 w2).filter
        (fun o => decide (o ∉ cur.exdates.filterMap id)) ≠ [] →
      e ∈ expandRecurringEvent tz (some (w1, w2)) cur t st rle →
      ∃ ms, e.start = some ms ∧ w1 ≤ ms ∧ ms ≤ w2) := by
  have hbetween : ∀ (r : RRuleData) (st : Option Int) (w1 w2 t : Int),
      t ∈ rruleBetween r st w1 w2 → w1 ≤ t ∧ t ≤ w2 := by
    intro r st w1 w2 t ht
    unfold rruleBetween at ht
    cases st with
    | none => cases ht
    | some d0 =>
      obtain ⟨k, _, hk⟩ := List.mem_filterMap.mp ht
      cases hcand : ruleCandidate r d0 k with
      | none => rw [hcand] at hk; cases hk
      | some c =>
        rw [hcand] at hk
        replace hk : (if w1 ≤ c ∧ c ≤ w2 then some c else none) = some t := hk
        by_cases hw : w1 ≤ c ∧ c ≤ w2
        · rw [if_pos hw] at hk
          cases hk
          exact hw
        · rw [if_neg hw] at hk
          cases hk
  refine ⟨hbetween, ?_⟩
  intro tz w1 w2 cur t st rle ru e hru hAD hne he
  unfold expandRecurringEvent at he
  rw [hru] at he
  replace he : e ∈ expandWithRule tz w1 w2 cur t st ru := he
  unfold expandWithRule at he
  have hcond : (((rruleBetween ru st w1 w2).filter
      (fun o => decide (o ∉ cur.exdates.filterMap id))).map
        (expandedRecord tz cur t
          (match cur.evEnd with
           | some e => jsSubOpt e st
           | none => some 0))).length > 0 := by
    rw [List.length_map]
    exact List.length_pos.mpr hne
  rw [if_pos hcond] at he
  obtain ⟨occ, hoccmem, hocc⟩ := List.mem_map.mp he
  have hoccb : occ ∈ rruleBetween ru st w1 w2 :=
    List.mem_of_mem_filter hoccmem
  have hwin := hbetween ru st w1 w2 occ hoccb
  refine ⟨occ, ?_, hwin.1, hwin.2⟩
  rw [← hocc]
  simp [expandedRecord, hAD]

/-- Witness for C1 (amended) at a concrete master: the first expanded
occurrence of the daily `Standup` master starts inside the window. -/
theorem C1_window_containment_amended_witness :
    ∃ ms, expandedFirst.start = some ms ∧ exWinS ≤ ms ∧ ms ≤ exWinE :=
  C1_window_containment_amended.2 0 exWinS exWinE curMaster "Standup"
    (some 1736154000000) "FREQ=DAILY" ⟨Freq.daily, 1, none⟩ expandedFirst
    (by decide) (by decide) (by decide) (by decide)

/-- Counterexample to **C1 as stated**: a standalone record whose start
(2030-01-01T12:00Z) lies far outside the window is returned unchanged —
the source applies no window filter on the standalone pass-through path. -/
theorem C1_counterexample :
    resolve 0 exWinS exWinE (oracleConst "r") icalOutsideWindow =
      .ok [⟨some "u9", "Far", some 1893499200000, none, false, none,
            none⟩] ∧
    ¬ (exWinS ≤ 1893499200000 ∧ (1893499200000 : Int) ≤ exWinE) :=
  ⟨rfl, by decide⟩

/-! ## C2: override precedence -/

/-- **C2 (amended)**: a weekly-Monday master (2025-01-06T09:00Z,
`FREQ=WEEKLY;BYDAY=MO`) plus an override whose `RECURRENCE-ID` is the third
Monday's 09:00Z instant, carrying the **same title** and a different time
(14:00Z), resolves over the four-Monday window to exactly 4 occurrences;
the third carries the override's time and the replaced expanded occurrence
is not emitted.  (With a *different* override title — the claim's wording —
correlation by title fails; see `C2_counterexample`.) -/
theorem C2_override_precedence_amended :
    resolve 0 exWinS exWinE (oracleConst "r") icalOverrideSameTitle =
      .ok [⟨some "master1_1736154000000", "Series", some 1736154000000,
             some (some 1736157600000), false, some 0, none⟩,
           ⟨some "master1_1736758800000", "Series", some 1736758800000,
             some (some 1736762400000), false, some 0, none⟩,
           ⟨some "ovr1", "Series", some 1737381600000,
             some (some 1737385200000), false, some 1,
             some (some 1737363600000)⟩,
           ⟨some "master1_1737968400000", "Series", some 1737968400000,
             some (some 1737972000000), false, some 0, none⟩] :=
  rfl

/-- Counterexample to **C2 as stated** (override with a *different*
title): the title-keyed correlation fails, the replaced expanded occurrence
stays in the output next to the override, and the window yields 5
occurrences instead of the claimed 4. -/
theorem C2_counterexample :
    Except.map List.length
        (resolve 0 exWinS exWinE (oracleConst "r") icalOverrideDiffTitle) =
      .ok 5 :=
  rfl

/-! ## C5: idempotence -/

theorem assignIds_congr (o1 o2 : Nat → String) :
    ∀ (recs : List PreEvent) (n1 n2 : Nat),
    (∀ e ∈ recs, ¬ (e.needsFresh = true ∧ (e.uid = none ∨ e.uid = some ""))) →
    assignIds o1 n1 recs = assignIds o2 n2 recs := by
  intro recs
  induction recs with
  | nil => intro n1 n2 _; rfl
  | cons e es ih =>
    intro n1 n2 h
    have hfresh : ¬ (e.needsFresh = true ∧ (e.uid = none ∨ e.uid = some "")) :=
      h e (List.mem_cons_self e es)
    simp only [assignIds, if_neg hfresh]
    rw [ih n1 n2 (fun x hx => h x (List.mem_cons_of_mem e hx))]

/-- **C5 (amended)**: resolving the same batch and window twice yields
identical occurrence lists — same ids, same order — whenever every record
produced by a pass-through push (standalone or exception) carries a
nonempty `UID`; the output is then independent of the fresh-id source.
Expanded-series ids are already deterministic
(`masterUid + '_' + occurrenceEpoch`).  (For an input with a UID-less
block the claim fails: see `C5_counterexample` — `Math.random` ids differ
between resolutions.) -/
theorem C5_idempotence_with_uids (tz w1 w2 : Int) (objects : List String)
    (o1 o2 : Nat → String)
    (h : ∀ e ∈ (objects.map (parseICalData tz (some (w1, w2)))).flatten,
      ¬ (e.needsFresh = true ∧ (e.uid = none ∨ e.uid = some ""))) :
    resolveBatch tz w1 w2 o1 objects = resolveBatch tz w1 w2 o2 objects := by
  simp only [resolveBatch]
  rw [assignIds_congr o1 o2
    ((objects.map (parseICalData tz (some (w1, w2)))).flatten) 0 0 h]

/-- Witness for C5 at a concrete batch in which every block carries a
`UID`: two different fresh-id oracles produce the same resolution. -/
theorem C5_idempotence_with_uids_witness :
    resolveBatch 0 exWinS exWinE (oracleConst "x") [icalOverrideSameTitle] =
      resolveBatch 0 exWinS exWinE (oracleConst "y")
        [icalOverrideSameTitle] :=
  C5_idempotence_with_uids 0 exWinS exWinE [icalOverrideSameTitle]
    (oracleConst "x") (oracleConst "y") (by decide)

/-- Counterexample to **C5 as stated** (which includes inputs with UID-less
blocks): a standalone block without `UID` gets its id from the fresh-id
source, so two resolutions of the same input disagree. -/
theorem C5_counterexample :
    resolve 0 exWinS exWinE (oracleConst "rndA") icalNoUid =
      .ok [⟨some "rndA", "NoUid", some 1736510400000, none, false, none,
            none⟩] ∧
    resolve 0 exWinS exWinE (oracleConst "rndB") icalNoUid =
      .ok [⟨some "rndB", "NoUid", some 1736510400000, none, false, none,
            none⟩] ∧
    (⟨some "rndA", "NoUid", some 1736510400000, none, false, none,
      none⟩ : CalendarEvent) ≠
      ⟨some "rndB", "NoUid", some 1736510400000, none, false, none, none⟩ :=
  ⟨rfl, rfl, by decide⟩

/-! ## C9: unusable-start exclusion -/

/-- **C9** (code bug): a `VEVENT` block whose `DTSTART` value cannot be
parsed still produces a record — the Invalid Date is truthy — and the
resolution pipeline then *throws* in `deduplicateEvents` (`toISOString` on
the invalid date), aborting the whole batch including the well-formed
second block, where the spec requires the block to be silently excluded
and the rest to resolve normally. -/
theorem C9_invalid_start_aborts_batch :
    (parseICalData 0 (some (exWinS, exWinE)) icalBadStart).map
        (fun e => e.start) = [none, some 1736510400000] ∧
    resolve 0 exWinS exWinE (oracleConst "r") icalBadStart = .error () :=
  ⟨rfl, rfl⟩

end Caldav
